import Mathlib

/-!
frigate-telegram: per-chat notification state, command handler and poll loop.

A shallow embedding of `main.go`.

* Go pointers `*ChatState` are addresses into an explicit heap of `ChatState`
  cells; `nil` is `none`.  Allocation (`&ChatState{...}`) appends a cell.
* The Go map `map[int64]*ChatState` is an association list, `nil` map is `none`.
* A Go panic (assignment into a nil map, dereference of a nil pointer) and
  `log.Error.Fatalln` (which ends the process) are explicit statuses.
* Results of calls into collaborators (`bot.Send`, `os.Create`,
  `frigate.GetEvents`) are inputs of the model.
* The two goroutines are modelled one at a time (sequentially interleaved at
  the granularity of one update / one poll cycle); the mutex is not modelled.
-/

namespace FrigateTelegram

/-! ## Persistent state management -/

/-- The Go struct `ChatState`. -/
structure ChatState where
  Enabled : Bool
  Silent : Bool
deriving DecidableEq, Repr

/-- Address of a heap-allocated `ChatState` (a non-nil `*ChatState`). -/
abbrev Ptr := Nat

/-- The heap cells holding `ChatState` values; the address of a cell is its index. -/
abbrev Heap := List ChatState

/-- A Go `map[int64]*ChatState` that is not nil: key/value entries. -/
abbrev ChatMap := List (Int × Option Ptr)

/-- The Go struct `StateManager` (the mutex is not modelled): `none` is the nil map. -/
structure StateManager where
  ChatStates : Option ChatMap
deriving DecidableEq, Repr

/-- A JSON value as the decoder of `encoding/json` sees it (object members in
file order, duplicates kept). -/
inductive Json where
  | null
  | bool (b : Bool)
  | num (s : String)
  | str (s : String)
  | arr (xs : List Json)
  | obj (kvs : List (String × Json))
deriving Repr

/-- The condition of the file `bot_state.json`: `os.Open` fails (absent or
unreadable), the bytes are not a JSON value, or the first JSON value of the file. -/
inductive File where
  | absent
  | garbage
  | json (v : Json)
deriving Repr

/-- The process memory the two goroutines share, and the state file. -/
structure World where
  heap : Heap
  botState : StateManager
  disk : File
deriving Repr

/-- The two runtime panics the program can raise. -/
inductive Panic where
  | assignToNilMap
  | nilDereference
deriving DecidableEq, Repr

/-- Go map read `m[k]` in its two-result form: `none` when the key is absent. -/
def lookup (k : Int) : ChatMap → Option (Option Ptr)
  | [] => none
  | (k1, v) :: es => if k1 = k then some v else lookup k es

/-- Go map write `m[k] = v` on a non-nil map: overwrite the entry, or add one. -/
def assign (k : Int) (v : Option Ptr) : ChatMap → ChatMap
  | [] => [(k, v)]
  | (k1, v1) :: es => if k1 = k then (k, v) :: es else (k1, v1) :: assign k v es

/-- Pointer dereference `*p`. -/
def deref (h : Heap) (p : Ptr) : Option ChatState := h.get? p

/-- The record a map stores under a destination, read through the heap: `none`
no entry, `some none` a nil (or dangling) pointer, `some (some c)` the cell it
points to. -/
def recordIn (h : Heap) (es : ChatMap) (k : Int) : Option (Option ChatState) :=
  (lookup k es).map (fun p => p.bind (deref h))

/-- The record the store holds under a destination (nothing in a nil map). -/
def record (w : World) (k : Int) : Option (Option ChatState) :=
  match w.botState.ChatStates with
  | none => none
  | some es => recordIn w.heap es k

/-- The method `StateManager.Get`: the existing pointer, or a freshly allocated
default record that is also stored in the map.  On a nil map the read finds
nothing and the write panics. -/
def Get (w : World) (chatID : Int) : Except Panic (World × Option Ptr) :=
  match w.botState.ChatStates with
  | none => .error .assignToNilMap
  | some es =>
    match lookup chatID es with
    | some state => .ok (w, state)
    | none =>
      let state : Ptr := w.heap.length
      .ok ({ w with heap := w.heap ++ [{ Enabled := true, Silent := false }],
                    botState := { ChatStates := some (assign chatID (some state) es) } },
           some state)

/-- Every non-nil pointer of the entries is an allocated cell of the heap. -/
def ptrsValidIn (h : Heap) (es : ChatMap) : Bool :=
  es.all (fun e => match e.2 with
    | none => true
    | some p => decide (p < h.length))

/-- Memory safety of Go: every non-nil pointer kept in the map is an allocated cell. -/
def PtrsValid (w : World) : Bool :=
  match w.botState.ChatStates with
  | none => true
  | some es => ptrsValidIn w.heap es

/-- The number of entries stored under a key. -/
def entriesFor (k : Int) (es : ChatMap) : Nat := (es.filter (fun e => e.1 = k)).length

/-- A store with one record (disabled, silent) under destination 7. -/
def storeWithSeven : World :=
  { heap := [{ Enabled := false, Silent := true }],
    botState := { ChatStates := some [(7, some 0)] },
    disk := File.absent }

/-! ## The state file: `encoding/json` on `StateManager` -/

/-- The digit character of a number below ten. -/
def digitChar (d : Nat) : Char := Char.ofNat (48 + d)

/-- The decimal digits of `n`, most significant first; `fuel` bounds their number. -/
def formatUintAux : Nat → Nat → List Char
  | 0, _ => []
  | fuel + 1, n =>
    if n < 10 then [digitChar n] else formatUintAux fuel (n / 10) ++ [digitChar (n % 10)]

/-- The decimal digits of a natural number (`strconv.FormatUint(n, 10)`). -/
def formatUint (n : Nat) : List Char := formatUintAux (n + 1) n

/-- The library function `strconv.FormatInt(i, 10)`, which the encoder uses for integer map keys. -/
def FormatInt (i : Int) : String :=
  String.mk (if i < 0 then '-' :: formatUint i.natAbs else formatUint i.natAbs)

/-- The value of a decimal digit character. -/
def parseDigit (c : Char) : Option Nat :=
  if 48 ≤ c.toNat ∧ c.toNat ≤ 57 then some (c.toNat - 48) else none

/-- The digit loop of `strconv.ParseUint` in base 10, on the unbounded value. -/
def parseUintAux (acc : Nat) : List Char → Option Nat
  | [] => some acc
  | c :: cs =>
    match parseDigit c with
    | none => none
    | some d => parseUintAux (acc * 10 + d) cs

/-- The library function `strconv.ParseUint(s, 10, 64)` without its range check:
the empty string and any non-digit are syntax errors. -/
def ParseUint (cs : List Char) : Option Nat :=
  match cs with
  | [] => none
  | _ => parseUintAux 0 cs

/-- The library function `strconv.ParseInt(s, 10, 64)`, which the decoder uses
for integer map keys: an optional sign, digits, and the int64 range check
(`none` stands for either error). -/
def ParseInt (s : String) : Option Int :=
  match s.toList with
  | [] => none
  | c :: rest =>
    let neg : Bool := c = '-'
    let body := if c = '+' ∨ c = '-' then rest else c :: rest
    match ParseUint body with
    | none => none
    | some un =>
      if 2 ^ 64 ≤ un then none
      else if neg = false ∧ 2 ^ 63 ≤ un then none
      else if neg = true ∧ 2 ^ 63 < un then none
      else some (if neg then -(un : Int) else (un : Int))

/-- The smallest rune of the case-fold orbit of a rune, as far as the orbits
of ASCII letters go: lower case to upper case, the long s to S, the Kelvin
sign to K. -/
def foldRune (c : Char) : Char :=
  if 97 ≤ c.toNat ∧ c.toNat ≤ 122 then Char.ofNat (c.toNat - 32)
  else if c.toNat = 0x17F then 'S'
  else if c.toNat = 0x212A then 'K'
  else c

/-- The decoder finds the struct field of an object key by exact name, else by
folded name; for the ASCII field names of this program both amount to equal folded names. -/
def fieldMatches (field key : String) : Bool :=
  key.toList.map foldRune = field.toList.map foldRune

/-- JSON encoding of a `ChatState` (field names from the struct tags). -/
def encodeChatState (c : ChatState) : Json :=
  .obj [("enabled", .bool c.Enabled), ("silent", .bool c.Silent)]

/-- JSON encoding of one map entry: the key in decimal, a nil pointer as `null`. -/
def encodeEntry (h : Heap) (e : Int × Option Ptr) : String × Json :=
  (FormatInt e.1,
    match e.2.bind (deref h) with
    | none => .null
    | some c => encodeChatState c)

/-- The order in which the encoder writes map entries: by key string. -/
def keyStringLE (a b : Int × Option Ptr) : Prop := ¬ (FormatInt b.1 < FormatInt a.1)

instance : DecidableRel keyStringLE := fun a b => by
  unfold keyStringLE
  exact inferInstance

/-- JSON encoding of the `StateManager`: the exported field `ChatStates` under
its tag; a nil map is `null`, map entries are sorted by key string. -/
def encodeStateManager (h : Heap) (sm : StateManager) : Json :=
  .obj [("chat_states",
    match sm.ChatStates with
    | none => .null
    | some es => .obj ((es.insertionSort keyStringLE).map (encodeEntry h)))]

/-- The method `StateManager.Save`: `os.Create` fails and the error is returned,
or the file is replaced by the encoding of the store (the write of the encoded
bytes is taken to succeed).  The Boolean result is `err == nil`. -/
def Save (w : World) (createOk : Bool) : World × Bool :=
  if createOk then ({ w with disk := .json (encodeStateManager w.heap w.botState) }, true)
  else (w, false)

/-- Decoding of a JSON object into a fresh `ChatState`: `true`/`false` set a
field, `null` leaves it, any other value is a type error; unknown keys are skipped. -/
def decodeChatState (fields : List (String × Json)) : Option ChatState :=
  fields.foldlM (fun (c : ChatState) (f : String × Json) =>
    if fieldMatches "enabled" f.1 then
      match f.2 with
      | .bool b => some { c with Enabled := b }
      | .null => some c
      | _ => none
    else if fieldMatches "silent" f.1 then
      match f.2 with
      | .bool b => some { c with Silent := b }
      | .null => some c
      | _ => none
    else some c) { Enabled := false, Silent := false }

/-- Decoding of one member of the `chat_states` object into the map: the value
into a fresh element (`null` gives a nil pointer, an object allocates a
`ChatState`, anything else is a type error), the key through `ParseInt`. -/
def decodeEntry (st : Heap × ChatMap) (e : String × Json) : Option (Heap × ChatMap) :=
  let elem : Option (Heap × Option Ptr) :=
    match e.2 with
    | .null => some (st.1, none)
    | .obj fields => (decodeChatState fields).map (fun c => (st.1 ++ [c], some st.1.length))
    | _ => none
  match elem, ParseInt e.1 with
  | some (h, p), some k => some (h, assign k p st.2)
  | _, _ => none

/-- Decoding of one member of the top-level object into the `StateManager`. -/
def decodeMember (st : Heap × StateManager) (m : String × Json) : Option (Heap × StateManager) :=
  if fieldMatches "chat_states" m.1 then
    match m.2 with
    | .null => some (st.1, { ChatStates := none })
    | .obj entries =>
      (entries.foldlM decodeEntry (st.1, st.2.ChatStates.getD [])).map
        (fun r => (r.1, { ChatStates := some r.2 }))
    | _ => none
  else some st

/-- The call `decoder.Decode(&sm)` on a zero `StateManager`; `none` is `err != nil`. -/
def decodeStateManager (v : Json) : Option (Heap × StateManager) :=
  match v with
  | .null => some ([], { ChatStates := none })
  | .obj members => members.foldlM decodeMember ([], { ChatStates := none })
  | _ => none

/-- The store `&StateManager{ChatStates: make(map[int64]*ChatState)}`. -/
def freshStore (disk : File) : World :=
  { heap := [], botState := { ChatStates := some [] }, disk := disk }

/-- The function `LoadState` at process start: a fresh empty store when the
file cannot be opened or decoded, else whatever the decoder produced. -/
def LoadState (disk : File) : World :=
  match disk with
  | .absent => freshStore disk
  | .garbage => freshStore disk
  | .json v =>
    match decodeStateManager v with
    | none => freshStore disk
    | some (h, sm) => { heap := h, botState := sm, disk := disk }

/-- Whether an integer is an int64 value. -/
def inInt64 (i : Int) : Bool := decide (-(2 ^ 63 : Int) ≤ i ∧ i < 2 ^ 63)

/-- The invariants of a Go `map[int64]*ChatState` value: each key occurs once
and is an int64. -/
def MapValid (w : World) : Bool :=
  match w.botState.ChatStates with
  | none => true
  | some es => decide (es.map Prod.fst).Nodup && es.all (fun e => inInt64 e.1)

/-- No nil record: every entry of the map holds a non-nil pointer. -/
def NoNilRecord (w : World) : Bool :=
  match w.botState.ChatStates with
  | none => true
  | some es => es.all (fun e => e.2.isSome)

/-- A store with records under 42 and -5 and its heap. -/
def storeTwoChats : World :=
  { heap := [{ Enabled := true, Silent := false }, { Enabled := false, Silent := true }],
    botState := { ChatStates := some [(42, some 0), (-5, some 1)] },
    disk := File.absent }

/-! ## Telegram bot logic -/

/-- What the handler reads of a `tgbotapi.Message`: `Chat.ID` (the Bot API
always sets the chat of a message) and the results of the library methods
`IsCommand()` and `Command()`. -/
structure Message where
  ChatID : Int
  IsCommand : Bool
  Command : String
deriving DecidableEq, Repr

/-- What the handler reads of a `tgbotapi.CallbackQuery`; `Message` is a
pointer the Bot API leaves nil for callbacks of inline messages. -/
structure CallbackQuery where
  ID : String
  Message : Option Message
  Data : String
deriving DecidableEq, Repr

/-- What the handler reads of a `tgbotapi.Update`: two optional pointers. -/
structure Update where
  Message : Option Message
  CallbackQuery : Option CallbackQuery
deriving DecidableEq, Repr

/-- The fields of `tgbotapi.MessageConfig` the program sets; the reply markup
is the inline keyboard as rows of (label, callback data) buttons. -/
structure MessageConfig where
  ChatID : Int
  Text : String
  DisableNotification : Bool
  ReplyMarkup : Option (List (List (String × String)))
deriving DecidableEq, Repr

/-- The constructor `tgbotapi.NewMessage(chatID, text)`. -/
def NewMessage (chatID : Int) (text : String) : MessageConfig :=
  { ChatID := chatID, Text := text, DisableNotification := false, ReplyMarkup := none }

/-- A call of the handler into the messaging platform: `bot.Send(msg)` or
`bot.Request(tgbotapi.NewCallback(id, ""))`. -/
inductive ApiCall where
  | Send (msg : MessageConfig)
  | Request (callbackID : String)
deriving DecidableEq, Repr

/-- What the environment answers while one update is handled: whether
`os.Create` succeeds inside `Save`, whether `bot.Send` of the command reply
returns no error, whether `bot.Send` of the callback reply returns no error. -/
structure Oracle where
  createOk : Bool
  sendOk : Bool
  callbackSendOk : Bool
deriving DecidableEq, Repr

/-- How a goroutine stands after a step: still running, ended by
`log.Error.Fatalln` (the `Fatalln` of a standard `log.Logger` prints and calls
`os.Exit(1)`), or ended by a runtime panic. -/
inductive Status where
  | running
  | exited
  | panicked (p : Panic)
deriving DecidableEq, Repr

/-- The result of handling one update. -/
structure Outcome where
  world : World
  calls : List ApiCall
  status : Status
deriving Repr

/-- The assignment a `case` of the command switch makes through `state`. -/
inductive Mutation where
  | nothing
  | setEnabled (b : Bool)
  | setSilent (b : Bool)
deriving DecidableEq, Repr

/-- One `case` of the command switch: the reply text, the reply markup, and
the assignment through `state` (followed by `botState.Save()` when there is one). -/
structure Branch where
  Text : String
  ReplyMarkup : Option (List (List (String × String)))
  mutation : Mutation
deriving DecidableEq, Repr

/-- The `switch update.Message.Command()` of `PongBot`. -/
def commandSwitch (command : String) : Branch :=
  match command with
  | "help" =>
    { Text := "Available commands:\n/start, /stop, /mute, /unmute, /ping, /status, /menu",
      ReplyMarkup := none, mutation := .nothing }
  | "start" =>
    { Text := "Notifications enabled.", ReplyMarkup := none, mutation := .setEnabled true }
  | "stop" =>
    { Text := "Notifications disabled.", ReplyMarkup := none, mutation := .setEnabled false }
  | "mute" =>
    { Text := "Notifications are now silent.", ReplyMarkup := none, mutation := .setSilent true }
  | "unmute" =>
    { Text := "Silent mode disabled.", ReplyMarkup := none, mutation := .setSilent false }
  | "ping" => { Text := "pong", ReplyMarkup := none, mutation := .nothing }
  | "pong" => { Text := "ping", ReplyMarkup := none, mutation := .nothing }
  | "status" => { Text := "I'm ok.", ReplyMarkup := none, mutation := .nothing }
  | "menu" =>
    { Text := "Select a command:",
      ReplyMarkup := some [[("Ping", "cmd_ping"), ("Status", "cmd_status")], [("Help", "cmd_help")]],
      mutation := .nothing }
  | _ => { Text := "I don't know that command.", ReplyMarkup := none, mutation := .nothing }

/-- The `switch update.CallbackQuery.Data` of `PongBot`. -/
def callbackSwitch (data : String) : String :=
  match data with
  | "cmd_ping" => "pong"
  | "cmd_status" => "I'm ok."
  | "cmd_help" =>
    "Available commands: /ping, /status, /pong, /menu, /start, /stop, /mute, /unmute"
  | _ => "Unknown command"

/-- An assignment `state.Enabled = b` or `state.Silent = b` through the pointer
`state`; a nil pointer panics. -/
def assignThrough (w : World) (state : Option Ptr) (f : ChatState → ChatState) :
    Except Panic World :=
  match state with
  | none => .error .nilDereference
  | some p =>
    match deref w.heap p with
    | none => .error .nilDereference
    | some c => .ok { w with heap := w.heap.set p (f c) }

/-- The effect of a `case` on the store: the assignment and then `botState.Save()`,
whose error the handler drops. -/
def applyMutation (w : World) (state : Option Ptr) (mu : Mutation) (createOk : Bool) :
    Except Panic World :=
  match mu with
  | .nothing => .ok w
  | .setEnabled b =>
    match assignThrough w state (fun c => { c with Enabled := b }) with
    | .error p => .error p
    | .ok w1 => .ok (Save w1 createOk).1
  | .setSilent b =>
    match assignThrough w state (fun c => { c with Silent := b }) with
    | .error p => .error p
    | .ok w1 => .ok (Save w1 createOk).1

/-- The first `if` of the loop body of `PongBot`, for a command message:
`Get`, the switch, `bot.Send`, and `Fatalln` when the send fails. -/
def handleCommand (w : World) (m : Message) (o : Oracle) : Outcome :=
  match Get w m.ChatID with
  | .error p => { world := w, calls := [], status := .panicked p }
  | .ok (w1, state) =>
    let br := commandSwitch m.Command
    match applyMutation w1 state br.mutation o.createOk with
    | .error p => { world := w1, calls := [], status := .panicked p }
    | .ok w2 =>
      { world := w2,
        calls := [.Send { NewMessage m.ChatID br.Text with ReplyMarkup := br.ReplyMarkup }],
        status := if o.sendOk then .running else .exited }

/-- The second `if` of the loop body of `PongBot`: the callback is answered,
then the reply goes to `CallbackQuery.Message.Chat.ID` (a nil `Message`
panics there); the results of both calls are dropped. -/
def handleCallback (w : World) (cq : CallbackQuery) : Outcome :=
  let reply := callbackSwitch cq.Data
  match cq.Message with
  | none => { world := w, calls := [.Request cq.ID], status := .panicked .nilDereference }
  | some m =>
    { world := w, calls := [.Request cq.ID, .Send (NewMessage m.ChatID reply)],
      status := .running }

/-- One iteration of the `for update := range updates` loop of `PongBot`. -/
def handleUpdate (w : World) (u : Update) (o : Oracle) : Outcome :=
  let r1 : Outcome :=
    match u.Message with
    | none => { world := w, calls := [], status := .running }
    | some m =>
      if m.IsCommand then handleCommand w m o
      else { world := w, calls := [], status := .running }
  match r1.status with
  | .running =>
    match u.CallbackQuery with
    | none => r1
    | some cq =>
      let r2 := handleCallback r1.world cq
      { world := r2.world, calls := r1.calls ++ r2.calls, status := r2.status }
  | _ => r1

/-- The result of a run of `PongBot`: `iterations` counts the loop iterations
that were entered. -/
structure HandlerRun where
  world : World
  calls : List ApiCall
  status : Status
  iterations : Nat
deriving Repr

/-- The function `PongBot` on the updates the channel delivers, each with the
answers of the environment; the loop ends when the goroutine dies or the
channel is closed. -/
def PongBot (w : World) : List (Update × Oracle) → HandlerRun
  | [] => { world := w, calls := [], status := .running, iterations := 0 }
  | (u, o) :: rest =>
    let r := handleUpdate w u o
    match r.status with
    | .running =>
      let r1 := PongBot r.world rest
      { world := r1.world, calls := r.calls ++ r1.calls, status := r1.status,
        iterations := r1.iterations + 1 }
    | s => { world := r.world, calls := r.calls, status := s, iterations := 1 }

/-! ## Main loop -/

/-- Modelled from the spec: the event record of package `frigate`, which is
not among the sources: a source-assigned `eventID` and the payload the message
text is rendered from. -/
structure Event where
  ID : String
  payload : String
deriving DecidableEq, Repr

/-- A `bot.Send` of the main loop together with the event it was made for. -/
structure Delivery where
  event : Event
  msg : MessageConfig
deriving DecidableEq, Repr

/-- The result of poll cycles of the main loop. -/
structure CycleRun where
  world : World
  sent : List Delivery
  status : Status
deriving Repr

/-- One iteration of the `for` loop of `main` after `frigate.GetEvents`
returned `FrigateEvents`; `ToMessage` is the method `event.ToMessage()` of the
absent package and `TelegramChatID` the configured primary destination.  The
results of `bot.Send` are dropped. -/
def pollCycle (ToMessage : Event → String) (TelegramChatID : Int) (w : World)
    (FrigateEvents : List Event) : CycleRun :=
  match Get w TelegramChatID with
  | .error p => { world := w, sent := [], status := .panicked p }
  | .ok (w1, state) =>
    match state.bind (deref w1.heap) with
    | none => { world := w1, sent := [], status := .panicked .nilDereference }
    | some c =>
      if c.Enabled then
        { world := w1,
          sent := FrigateEvents.map (fun event =>
            { event := event,
              msg := { NewMessage TelegramChatID (ToMessage event) with
                        DisableNotification := c.Silent } }),
          status := .running }
      else { world := w1, sent := [], status := .running }

/-- The `for` loop of `main` over the event lists successive calls of
`frigate.GetEvents` return. -/
def mainLoop (ToMessage : Event → String) (TelegramChatID : Int) (w : World) :
    List (List Event) → CycleRun
  | [] => { world := w, sent := [], status := .running }
  | FrigateEvents :: rest =>
    let r := pollCycle ToMessage TelegramChatID w FrigateEvents
    match r.status with
    | .running =>
      let r1 := mainLoop ToMessage TelegramChatID r.world rest
      { world := r1.world, sent := r.sent ++ r1.sent, status := r1.status }
    | _ => r

/-! ## Predicates and inputs used in the statements -/

/-- No record is shared: the non-nil pointers of the map are pairwise distinct. -/
def Unshared (w : World) : Bool :=
  match w.botState.ChatStates with
  | none => true
  | some es => decide (es.filterMap Prod.snd).Nodup

/-- The `Enabled` flag of the record under a destination, when there is one. -/
def enabledOf (w : World) (k : Int) : Option Bool :=
  match record w k with
  | some (some c) => some c.Enabled
  | _ => none

/-- The effect on `Enabled` of destination `D` an update asks for: `true` for a
start command from `D`, `false` for a stop command from `D`, nothing otherwise. -/
def startStopOf (D : Int) (u : Update) : Option Bool :=
  match u.Message with
  | none => none
  | some m =>
    if m.IsCommand = true ∧ m.ChatID = D then
      if m.Command = "start" then some true
      else if m.Command = "stop" then some false
      else none
    else none

/-- The effect of the last start or stop command `D` issued in a sequence of updates. -/
def lastStartStop (D : Int) : List Update → Option Bool
  | [] => none
  | u :: us =>
    match lastStartStop D us with
    | some b => some b
    | none => startStopOf D u

/-- A command message as an update. -/
def commandUpdate (chatID : Int) (command : String) : Update :=
  { Message := some { ChatID := chatID, IsCommand := true, Command := command },
    CallbackQuery := none }

/-- A menu-button tap as an update. -/
def callbackUpdate (chatID : Int) (data : String) : Update :=
  { Message := none,
    CallbackQuery := some
      { ID := "cb",
        Message := some { ChatID := chatID, IsCommand := false, Command := "" },
        Data := data } }

/-- The environment in which every call succeeds. -/
def allOk : Oracle := { createOk := true, sendOk := true, callbackSendOk := true }

/-- The environment in which `bot.Send` fails. -/
def sendFails : Oracle := { createOk := true, sendOk := false, callbackSendOk := false }

/-- An event of the source with ID X. -/
def eventX : Event := { ID := "X", payload := "person at the front door" }

/-- A rendering of events into message text, standing in for `ToMessage`. -/
def payloadText (e : Event) : String := e.payload

/-- The deliveries of a run that were made for the event ID `X`. -/
def deliveriesOf (X : String) (sent : List Delivery) : List Delivery :=
  sent.filter (fun d => d.event.ID = X)

/-- A store whose record under destination 42 is enabled and silent. -/
def storeMuted : World :=
  { heap := [{ Enabled := true, Silent := true }],
    botState := { ChatStates := some [(42, some 0)] },
    disk := File.absent }

/-- The message the main loop sends to 42 for `eventX` in silent mode. -/
def mutedDelivery : Delivery :=
  { event := eventX,
    msg := { ChatID := 42, Text := "person at the front door", DisableNotification := true,
             ReplyMarkup := none } }

/-- A state file holding the JSON text of an empty object. -/
def emptyObjectFile : File := .json (.obj [])

/-- A state file holding the JSON text of a `chat_states` object whose member 42 is null. -/
def nullRecordFile : File := .json (.obj [("chat_states", .obj [("42", .null)])])

/-- A state file holding the JSON text `null`. -/
def nullFile : File := .json .null

/-- The stores the program itself builds: the mapping is initialised, every
pointer of the map is an allocated cell, no record is nil and none is shared. -/
def WellFormed (w : World) : Bool :=
  w.botState.ChatStates.isSome && PtrsValid w && NoNilRecord w && Unshared w

/-- Whether handling the update with these answers lets the handler go on:
the reply to a command is sent, and a callback carries its message. -/
def goesOn (uo : Update × Oracle) : Bool :=
  (match uo.1.Message with
    | none => true
    | some m => !m.IsCommand || uo.2.sendOk) &&
  (match uo.1.CallbackQuery with
    | none => true
    | some cq => cq.Message.isSome)

/-- The updates whose loop iteration a run of `PongBot` entered. -/
def processedUpdates (w : World) (us : List (Update × Oracle)) : List Update :=
  (us.take (PongBot w us).iterations).map Prod.fst

/-- A sequence of updates from chats 42, 7 and 9, every reply sent. -/
def mixedUpdates : List (Update × Oracle) :=
  [(commandUpdate 42 "start", allOk), (commandUpdate 7 "stop", allOk),
   (commandUpdate 42 "stop", allOk), (callbackUpdate 42 "cmd_ping", allOk),
   (commandUpdate 42 "mute", allOk), (commandUpdate 9 "start", allOk)]

/-! ## Theorems -/

theorem lookup_assign_self (k : Int) (v : Option Ptr) (es : ChatMap) :
    lookup k (assign k v es) = some v := by
  induction es with
  | nil => simp [assign, lookup]
  | cons e es ih =>
    obtain ⟨k1, v1⟩ := e
    by_cases h : k1 = k
    · simp [assign, lookup, h]
    · simp [assign, lookup, h, ih]

theorem lookup_assign_ne (k E : Int) (v : Option Ptr) (es : ChatMap) (h : E ≠ k) :
    lookup E (assign k v es) = lookup E es := by
  induction es with
  | nil => simp [assign, lookup, Ne.symm h]
  | cons e es ih =>
    obtain ⟨k1, v1⟩ := e
    by_cases h1 : k1 = k
    · subst h1
      simp [assign, lookup, Ne.symm h]
    · by_cases h2 : k1 = E
      · subst h2
        simp [assign, lookup, h1]
      · simp [assign, lookup, h1, h2, ih]

theorem assign_of_lookup_none (k : Int) (v : Option Ptr) (es : ChatMap)
    (h : lookup k es = none) : assign k v es = es ++ [(k, v)] := by
  induction es with
  | nil => rfl
  | cons e es ih =>
    obtain ⟨k1, v1⟩ := e
    by_cases h1 : k1 = k
    · simp [lookup, h1] at h
    · simp only [lookup, h1, if_false] at h
      simp [assign, h1, ih h]

theorem entriesFor_of_lookup_none (k : Int) (es : ChatMap) (h : lookup k es = none) :
    entriesFor k es = 0 := by
  induction es with
  | nil => rfl
  | cons e es ih =>
    obtain ⟨k1, v1⟩ := e
    by_cases h1 : k1 = k
    · simp [lookup, h1] at h
    · simp only [lookup, h1, if_false] at h
      have := ih h
      simp only [entriesFor] at this ⊢
      simp [List.filter, h1, this]

theorem mem_of_lookup (k : Int) (v : Option Ptr) (es : ChatMap)
    (h : lookup k es = some v) : (k, v) ∈ es := by
  induction es with
  | nil => simp [lookup] at h
  | cons e es ih =>
    obtain ⟨k1, v1⟩ := e
    by_cases h1 : k1 = k
    · simp [lookup, h1] at h
      simp [h1, h]
    · simp only [lookup, h1, if_false] at h
      exact List.mem_cons_of_mem _ (ih h)

theorem ptr_lt_of_validIn (hp : Heap) (es : ChatMap) (hv : ptrsValidIn hp es = true)
    (k : Int) (p : Ptr) (h : lookup k es = some (some p)) : p < hp.length := by
  simp only [ptrsValidIn, List.all_eq_true] at hv
  have := hv _ (mem_of_lookup k _ es h)
  simpa using this

theorem ptr_lt_of_valid (w : World) (es : ChatMap) (hes : w.botState.ChatStates = some es)
    (hv : PtrsValid w = true) (k : Int) (p : Ptr) (h : lookup k es = some (some p)) :
    p < w.heap.length := by
  simp only [PtrsValid, hes] at hv
  exact ptr_lt_of_validIn _ _ hv k p h

/-- C1: on a store with an initialised mapping that has no record under D,
Get(D) returns a fresh record {Enabled: true, Silent: false} and stores exactly
that one record under D; a second Get(D) returns the same pointer and leaves the
store as it is; a write through the first pointer is read through the second;
the records of all other IDs are the same before and after. -/
theorem Get_unseen_default_idempotent (w : World) (D : Int) (es : ChatMap)
    (hinit : w.botState.ChatStates = some es) (hD : lookup D es = none)
    (hmem : PtrsValid w = true) :
    ∃ w1 p,
      Get w D = .ok (w1, some p) ∧
      deref w1.heap p = some { Enabled := true, Silent := false } ∧
      w1.botState.ChatStates = some (es ++ [(D, some p)]) ∧
      entriesFor D (es ++ [(D, some p)]) = 1 ∧
      Get w1 D = .ok (w1, some p) ∧
      (∀ c : ChatState,
        Get { w1 with heap := w1.heap.set p c } D
            = .ok ({ w1 with heap := w1.heap.set p c }, some p) ∧
          deref (w1.heap.set p c) p = some c) ∧
      (∀ E, E ≠ D → record w1 E = record w E) ∧
      w1.disk = w.disk := by
  refine ⟨{ w with heap := w.heap ++ [{ Enabled := true, Silent := false }],
                   botState := { ChatStates := some (es ++ [(D, some w.heap.length)]) } },
          w.heap.length, ?_, ?_, rfl, ?_, ?_, ?_, ?_, rfl⟩
  · simp [Get, hinit, hD, assign_of_lookup_none D _ es hD]
  · simp [deref]
  · have h0 := entriesFor_of_lookup_none D es hD
    simp only [entriesFor] at h0 ⊢
    simp [List.filter_append, h0]
  · have h1 : lookup D (es ++ [(D, some w.heap.length)]) = some (some w.heap.length) := by
      rw [← assign_of_lookup_none D _ es hD]; exact lookup_assign_self _ _ _
    simp [Get, h1]
  · intro c
    have h1 : lookup D (es ++ [(D, some w.heap.length)]) = some (some w.heap.length) := by
      rw [← assign_of_lookup_none D _ es hD]; exact lookup_assign_self _ _ _
    constructor
    · simp [Get, h1]
    · simp [deref]
  · intro E hE
    have h1 : lookup E (es ++ [(D, some w.heap.length)]) = lookup E es := by
      rw [← assign_of_lookup_none D _ es hD]; exact lookup_assign_ne _ _ _ _ hE
    simp only [record, recordIn, hinit, h1]
    cases hl : lookup E es with
    | none => rfl
    | some v =>
      cases v with
      | none => rfl
      | some q =>
        have hq := ptr_lt_of_valid w es hinit hmem E q hl
        simp [deref, List.getElem?_append_left hq]

theorem Get_unseen_default_idempotent_witness :
    ∃ w1 p,
      Get storeWithSeven 42 = .ok (w1, some p) ∧
      deref w1.heap p = some { Enabled := true, Silent := false } ∧
      w1.botState.ChatStates = some ([(7, some 0)] ++ [(42, some p)]) ∧
      entriesFor 42 ([(7, some 0)] ++ [(42, some p)]) = 1 ∧
      Get w1 42 = .ok (w1, some p) ∧
      (∀ c : ChatState,
        Get { w1 with heap := w1.heap.set p c } 42
            = .ok ({ w1 with heap := w1.heap.set p c }, some p) ∧
          deref (w1.heap.set p c) p = some c) ∧
      (∀ E, E ≠ 42 → record w1 E = record storeWithSeven E) ∧
      w1.disk = storeWithSeven.disk :=
  Get_unseen_default_idempotent storeWithSeven 42 [(7, some 0)] rfl (by decide) (by decide)

theorem parseDigit_digitChar (d : Nat) (h : d < 10) : parseDigit (digitChar d) = some d := by
  interval_cases d <;> decide

theorem digitChar_not_sign (d : Nat) (h : d < 10) : digitChar d ≠ '+' ∧ digitChar d ≠ '-' := by
  interval_cases d <;> decide

theorem parseUintAux_append (a : Nat) (xs : List Char) (c : Char) :
    parseUintAux a (xs ++ [c]) =
      (parseUintAux a xs).bind (fun v => (parseDigit c).map (fun d => v * 10 + d)) := by
  induction xs generalizing a with
  | nil =>
    simp only [List.nil_append, parseUintAux]
    cases parseDigit c <;> rfl
  | cons x xs ih =>
    simp only [List.cons_append, parseUintAux]
    cases parseDigit x with
    | none => rfl
    | some d => exact ih _

theorem parseUintAux_formatUintAux (fuel n : Nat) (h : n < fuel) :
    parseUintAux 0 (formatUintAux fuel n) = some n := by
  induction fuel generalizing n with
  | zero => omega
  | succ f ih =>
    unfold formatUintAux
    by_cases h10 : n < 10
    · simp [h10, parseUintAux, parseDigit_digitChar n h10]
    · have hdiv : n / 10 < f := by omega
      have hmod : n % 10 < 10 := Nat.mod_lt _ (by decide)
      simp only [h10, if_false, parseUintAux_append, ih _ hdiv, parseDigit_digitChar _ hmod]
      simp only [Option.some_bind, Option.map_some', Option.some.injEq]
      omega

theorem formatUintAux_head (fuel n : Nat) (h : n < fuel) :
    ∃ d rest, d < 10 ∧ formatUintAux fuel n = digitChar d :: rest := by
  induction fuel generalizing n with
  | zero => omega
  | succ f ih =>
    unfold formatUintAux
    by_cases h10 : n < 10
    · exact ⟨n, [], h10, by simp [h10]⟩
    · have hdiv : n / 10 < f := by omega
      obtain ⟨d, rest, hd, heq⟩ := ih _ hdiv
      exact ⟨d, rest ++ [digitChar (n % 10)], hd, by simp [h10, heq]⟩

theorem ParseUint_formatUint (n : Nat) : ParseUint (formatUint n) = some n := by
  obtain ⟨d, rest, _, heq⟩ := formatUintAux_head (n + 1) n (Nat.lt_succ_self n)
  have hp := parseUintAux_formatUintAux (n + 1) n (Nat.lt_succ_self n)
  unfold formatUint
  rw [heq] at hp ⊢
  simpa [ParseUint] using hp

/-- Every int64 key survives the decimal string encoding of map keys. -/
theorem ParseInt_FormatInt (k : Int) (h : inInt64 k = true) : ParseInt (FormatInt k) = some k := by
  simp only [inInt64, decide_eq_true_eq] at h
  obtain ⟨hlo, hhi⟩ := h
  by_cases hneg : k < 0
  · have hu := ParseUint_formatUint k.natAbs
    have h1 : k.natAbs ≤ 2 ^ 63 := by omega
    have h2 : ¬ (2 ^ 64 ≤ k.natAbs) := by omega
    have h3 : ¬ (2 ^ 63 < k.natAbs) := by omega
    simp [ParseInt, FormatInt, hneg, hu, abs_of_neg hneg]
    omega
  · obtain ⟨d, rest, hd, heq⟩ := formatUintAux_head (k.natAbs + 1) k.natAbs (Nat.lt_succ_self _)
    have hu := ParseUint_formatUint k.natAbs
    obtain ⟨hplus, hminus⟩ := digitChar_not_sign d hd
    have h2 : ¬ (2 ^ 64 ≤ k.natAbs) := by omega
    have h3 : ¬ (2 ^ 63 ≤ k.natAbs) := by omega
    unfold formatUint at hu
    rw [heq] at hu
    simp [ParseInt, FormatInt, hneg, formatUint, heq, hplus, hminus, hu,
      abs_of_nonneg (not_lt.mp hneg)]
    omega

theorem mem_assign (k : Int) (v : Option Ptr) (es : ChatMap) (e : Int × Option Ptr)
    (h : e ∈ assign k v es) : e ∈ es ∨ e = (k, v) := by
  induction es with
  | nil => simpa [assign] using h
  | cons e1 es ih =>
    obtain ⟨k1, v1⟩ := e1
    by_cases h1 : k1 = k
    · simp only [assign, h1, if_true, List.mem_cons] at h
      rcases h with h | h
      · exact Or.inr h
      · exact Or.inl (List.mem_cons_of_mem _ h)
    · simp only [assign, h1, if_false, List.mem_cons] at h
      rcases h with h | h
      · exact Or.inl (by simp [h])
      · rcases ih h with h2 | h2
        · exact Or.inl (List.mem_cons_of_mem _ h2)
        · exact Or.inr h2

theorem ptrsValidIn_mono (h h1 : Heap) (es : ChatMap) (hle : h.length ≤ h1.length)
    (hv : ptrsValidIn h es = true) : ptrsValidIn h1 es = true := by
  simp only [ptrsValidIn, List.all_eq_true] at hv ⊢
  intro e he
  have := hv e he
  obtain ⟨k, v⟩ := e
  cases v with
  | none => simp
  | some p =>
    have h2 : p < h.length := by simpa using this
    have h3 : p < h1.length := Nat.lt_of_lt_of_le h2 hle
    simpa using h3

theorem ptrsValidIn_assign (h : Heap) (es : ChatMap) (k : Int) (v : Option Ptr)
    (hv : ptrsValidIn h es = true) (hp : ∀ p, v = some p → p < h.length) :
    ptrsValidIn h (assign k v es) = true := by
  simp only [ptrsValidIn, List.all_eq_true] at hv ⊢
  intro e he
  rcases mem_assign k v es e he with h1 | h1
  · exact hv e h1
  · subst h1
    cases v with
    | none => simp
    | some p => simpa using hp p rfl

theorem deref_append_of_lt (h : Heap) (c : ChatState) (p : Ptr) (hp : p < h.length) :
    deref (h ++ [c]) p = deref h p := by
  simp [deref, List.getElem?_append_left hp]

theorem recordIn_append_heap (h : Heap) (c : ChatState) (es : ChatMap) (k : Int)
    (hv : ptrsValidIn h es = true) : recordIn (h ++ [c]) es k = recordIn h es k := by
  simp only [recordIn]
  cases hl : lookup k es with
  | none => rfl
  | some v =>
    cases v with
    | none => rfl
    | some q =>
      have hq := ptr_lt_of_validIn h es hv k q hl
      simp [deref_append_of_lt h c q hq]

theorem decodeChatState_encode (c : ChatState) :
    decodeChatState [("enabled", .bool c.Enabled), ("silent", .bool c.Silent)] = some c := by
  have h1 : fieldMatches "enabled" "enabled" = true := by decide
  have h2 : fieldMatches "enabled" "silent" = false := by decide
  have h3 : fieldMatches "silent" "silent" = true := by decide
  simp [decodeChatState, List.foldlM, h1, h2, h3]

theorem decodeEntry_encodeEntry (h0 h : Heap) (m : ChatMap) (k0 : Int) (v0 : Option Ptr)
    (hk : inInt64 k0 = true) :
    decodeEntry (h, m) (encodeEntry h0 (k0, v0)) =
      some (match v0.bind (deref h0) with
        | none => (h, assign k0 none m)
        | some c => (h ++ [c], assign k0 (some h.length) m)) := by
  simp only [decodeEntry, encodeEntry, ParseInt_FormatInt k0 hk]
  cases v0.bind (deref h0) with
  | none => rfl
  | some c => simp [encodeChatState, decodeChatState_encode]

theorem decode_step (h0 h : Heap) (m : ChatMap) (k0 : Int) (v0 : Option Ptr)
    (hv : ptrsValidIn h m = true) (s1 : Heap × ChatMap)
    (hs : s1 = (match v0.bind (deref h0) with
        | none => (h, assign k0 none m)
        | some c => (h ++ [c], assign k0 (some h.length) m))) :
    ptrsValidIn s1.1 s1.2 = true ∧
      recordIn s1.1 s1.2 k0 = some (v0.bind (deref h0)) ∧
      ∀ k, k ≠ k0 → recordIn s1.1 s1.2 k = recordIn h m k := by
  cases hc : v0.bind (deref h0) with
  | none =>
    rw [hc] at hs
    subst hs
    refine ⟨ptrsValidIn_assign h m k0 none hv (by simp), ?_, ?_⟩
    · simp [recordIn, lookup_assign_self]
    · intro k hk
      simp [recordIn, lookup_assign_ne k0 k none m hk]
  | some c =>
    rw [hc] at hs
    subst hs
    have hv1 : ptrsValidIn (h ++ [c]) m = true :=
      ptrsValidIn_mono h (h ++ [c]) m (by simp) hv
    refine ⟨ptrsValidIn_assign (h ++ [c]) m k0 (some h.length) hv1 (by simp), ?_, ?_⟩
    · simp [recordIn, lookup_assign_self, deref]
    · intro k hk
      have := recordIn_append_heap h c m k hv
      simp only [recordIn] at this ⊢
      rw [lookup_assign_ne k0 k _ m hk]
      exact this

theorem decode_fold (h0 : Heap) (xs : ChatMap) :
    ∀ (h : Heap) (m : ChatMap), ptrsValidIn h m = true →
      (∀ e ∈ xs, inInt64 e.1 = true) →
      ∃ h1 m1, (xs.map (encodeEntry h0)).foldlM decodeEntry (h, m) = some (h1, m1) ∧
        ptrsValidIn h1 m1 = true ∧
        (∀ k, k ∉ xs.map Prod.fst → recordIn h1 m1 k = recordIn h m k) ∧
        ((xs.map Prod.fst).Nodup → ∀ k v, (k, v) ∈ xs →
          recordIn h1 m1 k = some (v.bind (deref h0))) := by
  induction xs with
  | nil =>
    intro h m hv _
    exact ⟨h, m, rfl, hv, fun _ _ => rfl, fun _ k v hmem => by simp at hmem⟩
  | cons x xs ih =>
    intro h m hv hk
    obtain ⟨k0, v0⟩ := x
    have hk0 : inInt64 k0 = true := hk (k0, v0) (by simp)
    obtain ⟨hv1, hself, hother⟩ := decode_step h0 h m k0 v0 hv _ rfl
    obtain ⟨h1, m1, hfold, hv2, hout, hin⟩ :=
      ih _ _ hv1 (fun e he => hk e (List.mem_cons_of_mem _ he))
    refine ⟨h1, m1, ?_, hv2, ?_, ?_⟩
    · simp only [List.map_cons, List.foldlM_cons, decodeEntry_encodeEntry h0 h m k0 v0 hk0]
      exact hfold
    · intro k hnot
      simp only [List.map_cons, List.mem_cons, not_or] at hnot
      rw [hout k hnot.2]
      exact hother k hnot.1
    · intro hnd k v hmem
      simp only [List.map_cons, List.nodup_cons] at hnd
      simp only [List.mem_cons, Prod.mk.injEq] at hmem
      rcases hmem with ⟨hk1, hv3⟩ | hmem
      · subst hk1 hv3
        rw [hout k hnd.1]
        exact hself
      · exact hin hnd.2 k v hmem

theorem lookup_eq_none_iff (k : Int) (es : ChatMap) :
    lookup k es = none ↔ k ∉ es.map Prod.fst := by
  induction es with
  | nil => simp [lookup]
  | cons e es ih =>
    obtain ⟨k1, v1⟩ := e
    by_cases h1 : k1 = k
    · simp [lookup, h1]
    · simp [lookup, h1, ih, Ne.symm h1]

theorem decodeStateManager_encode (h0 : Heap) (es : ChatMap)
    (hk : ∀ e ∈ es, inInt64 e.1 = true) (hnd : (es.map Prod.fst).Nodup) :
    ∃ h1 m1, decodeStateManager (encodeStateManager h0 { ChatStates := some es })
        = some (h1, { ChatStates := some m1 }) ∧
      ∀ k, recordIn h1 m1 k = recordIn h0 es k := by
  have hperm := List.perm_insertionSort keyStringLE es
  have hk1 : ∀ e ∈ es.insertionSort keyStringLE, inInt64 e.1 = true :=
    fun e he => hk e (hperm.mem_iff.mp he)
  have hnd1 : ((es.insertionSort keyStringLE).map Prod.fst).Nodup :=
    (hperm.map Prod.fst).nodup_iff.mpr hnd
  obtain ⟨h1, m1, hfold, _, hout, hin⟩ :=
    decode_fold h0 (es.insertionSort keyStringLE) [] [] rfl hk1
  refine ⟨h1, m1, ?_, ?_⟩
  · have hf : fieldMatches "chat_states" "chat_states" = true := by decide
    simp [decodeStateManager, encodeStateManager, decodeMember, hf, hfold]
  · intro k
    cases hl : lookup k es with
    | none =>
      have hnot : k ∉ (es.insertionSort keyStringLE).map Prod.fst := by
        intro hmem
        exact (lookup_eq_none_iff k es).mp hl ((hperm.map Prod.fst).mem_iff.mp hmem)
      rw [hout k hnot]
      simp [recordIn, hl, lookup]
    | some v =>
      have hmem : (k, v) ∈ es.insertionSort keyStringLE :=
        hperm.mem_iff.mpr (mem_of_lookup k v es hl)
      rw [hin hnd1 k v hmem]
      simp [recordIn, hl]

/-- C3: when Save succeeds on a store whose mapping is initialised and whose
records are all non-nil, a fresh LoadState of the written file returns a store
with an initialised mapping, the same set of destination IDs, and under each ID
a record with the same Enabled and Silent values. -/
theorem Save_LoadState_roundtrip (w : World) (es : ChatMap) (createOk : Bool)
    (hinit : w.botState.ChatStates = some es)
    (hnonnil : NoNilRecord w = true)
    (hmap : MapValid w = true) (hmem : PtrsValid w = true)
    (hok : (Save w createOk).2 = true) :
    ∃ es1, (LoadState (Save w createOk).1.disk).botState.ChatStates = some es1 ∧
      (∀ k, (lookup k es1).isSome = (lookup k es).isSome) ∧
      (∀ k, record (LoadState (Save w createOk).1.disk) k = record w k) ∧
      (∀ k, (lookup k es).isSome = true →
        ∃ c, record w k = some (some c) ∧
          record (LoadState (Save w createOk).1.disk) k = some (some c)) := by
  have hc : createOk = true := by
    cases createOk with
    | true => rfl
    | false => simp [Save] at hok
  subst hc
  simp only [MapValid, hinit, Bool.and_eq_true, decide_eq_true_eq, List.all_eq_true] at hmap
  obtain ⟨hnd, hk⟩ := hmap
  obtain ⟨h1, m1, hdec, hrec⟩ := decodeStateManager_encode w.heap es hk hnd
  have hsm : w.botState = { ChatStates := some es } := by
    cases hb : w.botState with
    | mk cs => rw [hb] at hinit; simp only at hinit; rw [hinit]
  have hload : LoadState (Save w true).1.disk
      = { heap := h1, botState := { ChatStates := some m1 },
          disk := .json (encodeStateManager w.heap w.botState) } := by
    simp only [Save, if_true, LoadState, hsm, hdec]
  have hrecs : ∀ k, record (LoadState (Save w true).1.disk) k = record w k := by
    intro k
    rw [hload]
    simp only [record, hinit]
    exact hrec k
  refine ⟨m1, by rw [hload], ?_, hrecs, ?_⟩
  · intro k
    have := hrec k
    simp only [recordIn] at this
    have h2 := congrArg Option.isSome this
    simpa using h2
  · intro k hks
    obtain ⟨v, hv⟩ := Option.isSome_iff_exists.mp hks
    simp only [NoNilRecord, hinit, List.all_eq_true] at hnonnil
    have hvs := hnonnil _ (mem_of_lookup k v es hv)
    obtain ⟨p, hp⟩ := Option.isSome_iff_exists.mp hvs
    simp only at hp
    subst hp
    have hlt := ptr_lt_of_valid w es hinit hmem k p hv
    have hw : record w k = some (some (w.heap.get ⟨p, hlt⟩)) := by
      simp [record, recordIn, hinit, hv, deref, List.getElem?_eq_getElem hlt]
    exact ⟨_, hw, by rw [hrecs k, hw]⟩

theorem Save_LoadState_roundtrip_witness :
    ∃ es1, (LoadState (Save storeTwoChats true).1.disk).botState.ChatStates = some es1 ∧
      (∀ k, (lookup k es1).isSome = (lookup k [(42, some 0), (-5, some 1)]).isSome) ∧
      (∀ k, record (LoadState (Save storeTwoChats true).1.disk) k = record storeTwoChats k) ∧
      (∀ k, (lookup k [(42, some 0), (-5, some 1)]).isSome = true →
        ∃ c, record storeTwoChats k = some (some c) ∧
          record (LoadState (Save storeTwoChats true).1.disk) k = some (some c)) :=
  Save_LoadState_roundtrip storeTwoChats [(42, some 0), (-5, some 1)] true rfl
    (by decide) (by decide) (by decide) rfl

theorem Get_nil (w : World) (D : Int) (h : w.botState.ChatStates = none) :
    Get w D = .error .assignToNilMap := by
  simp [Get, h]

theorem Get_seen (w : World) (D : Int) (es : ChatMap) (v : Option Ptr)
    (hinit : w.botState.ChatStates = some es) (hl : lookup D es = some v) :
    Get w D = .ok (w, v) := by
  simp [Get, hinit, hl]

theorem Get_unseen (w : World) (D : Int) (es : ChatMap)
    (hinit : w.botState.ChatStates = some es) (hl : lookup D es = none) :
    Get w D = .ok ({ w with heap := w.heap ++ [{ Enabled := true, Silent := false }],
                            botState := { ChatStates := some (es ++ [(D, some w.heap.length)]) } },
                   some w.heap.length) := by
  simp [Get, hinit, hl, assign_of_lookup_none D _ es hl]

theorem lookup_append_new (D : Int) (v : Option Ptr) (es : ChatMap)
    (hl : lookup D es = none) : lookup D (es ++ [(D, v)]) = some v := by
  rw [← assign_of_lookup_none D v es hl]
  exact lookup_assign_self _ _ _

theorem lookup_append_other (D E : Int) (v : Option Ptr) (es : ChatMap)
    (hl : lookup D es = none) (hE : E ≠ D) : lookup E (es ++ [(D, v)]) = lookup E es := by
  rw [← assign_of_lookup_none D v es hl]
  exact lookup_assign_ne _ _ _ _ hE

theorem Get_record (w w1 : World) (D : Int) (st : Option Ptr)
    (hG : Get w D = .ok (w1, st)) : record w1 D = some (st.bind (deref w1.heap)) := by
  cases hcs : w.botState.ChatStates with
  | none => simp [Get, hcs] at hG
  | some es =>
    cases hl : lookup D es with
    | some v =>
      rw [Get_seen w D es v hcs hl] at hG
      simp only [Except.ok.injEq, Prod.mk.injEq] at hG
      obtain ⟨h1, h2⟩ := hG
      subst h1 h2
      simp [record, recordIn, hcs, hl]
    | none =>
      rw [Get_unseen w D es hcs hl] at hG
      simp only [Except.ok.injEq, Prod.mk.injEq] at hG
      obtain ⟨h1, h2⟩ := hG
      subst h1 h2
      simp [record, recordIn, lookup_append_new D _ es hl]

/-- C5: every message a poll cycle sends goes to the primary destination, is
the rendering of a fetched event, and carries DisableNotification equal to the
Silent flag of the record of the primary destination (the record Get returns,
which is the record the store held before the cycle when there was one); the
cycle sends either nothing or one message per fetched event, in fetch order. -/
theorem pollCycle_disableNotification_is_silent (ToMessage : Event → String)
    (chat : Int) (w : World) (events : List Event) :
    ((pollCycle ToMessage chat w events).sent = [] ∨
      (pollCycle ToMessage chat w events).sent.map Delivery.event = events) ∧
    (∀ d ∈ (pollCycle ToMessage chat w events).sent,
      d.msg.ChatID = chat ∧ d.msg.Text = ToMessage d.event ∧
      ∃ c, record (pollCycle ToMessage chat w events).world chat = some (some c) ∧
        d.msg.DisableNotification = c.Silent) ∧
    (∀ c0, record w chat = some (some c0) →
      ∀ d ∈ (pollCycle ToMessage chat w events).sent,
        d.msg.DisableNotification = c0.Silent) := by
  refine ⟨?_, ?_, ?_⟩
  · unfold pollCycle
    cases hG : Get w chat with
    | error p => simp
    | ok r =>
      obtain ⟨w1, st⟩ := r
      cases hc : st.bind (deref w1.heap) with
      | none => simp [hc]
      | some c =>
        by_cases he : c.Enabled = true
        · simp only [hc, he, if_true]
          exact Or.inr (by simp [List.map_map, Function.comp_def])
        · simp [hc, he]
  · unfold pollCycle
    cases hG : Get w chat with
    | error p => simp
    | ok r =>
      obtain ⟨w1, st⟩ := r
      have hrec := Get_record w w1 chat st hG
      cases hc : st.bind (deref w1.heap) with
      | none => simp [hc]
      | some c =>
        rw [hc] at hrec
        by_cases he : c.Enabled = true
        · simp only [hc, he, if_true]
          intro d hd
          simp only [List.mem_map] at hd
          obtain ⟨e, _, rfl⟩ := hd
          exact ⟨rfl, rfl, c, hrec, rfl⟩
        · simp [hc, he]
  · intro c0 hc0 d hd
    cases hcs : w.botState.ChatStates with
    | none => simp [record, hcs] at hc0
    | some es =>
      simp only [record, recordIn, hcs] at hc0
      cases hl : lookup chat es with
      | none => simp [hl] at hc0
      | some v =>
        rw [hl] at hc0
        simp only [Option.map_some', Option.some.injEq] at hc0
        unfold pollCycle at hd
        rw [Get_seen w chat es v hcs hl] at hd
        simp only [hc0] at hd
        by_cases he : c0.Enabled = true
        · simp only [he, if_true, List.mem_map] at hd
          obtain ⟨e, _, rfl⟩ := hd
          rfl
        · simp [he] at hd

theorem pollCycle_disableNotification_is_silent_witness :
    mutedDelivery ∈ (pollCycle payloadText 42 storeMuted [eventX]).sent ∧
      record storeMuted 42 = some (some { Enabled := true, Silent := true }) ∧
      mutedDelivery.msg.DisableNotification = true :=
  ⟨by decide, by decide,
    (pollCycle_disableNotification_is_silent payloadText 42 storeMuted [eventX]).2.2
      { Enabled := true, Silent := true } (by decide) mutedDelivery (by decide)⟩

theorem pollCycle_of_record (ToMessage : Event → String) (chat : Int) (w : World)
    (es : ChatMap) (c : ChatState) (events : List Event)
    (hinit : w.botState.ChatStates = some es) (hrec : record w chat = some (some c)) :
    pollCycle ToMessage chat w events =
      { world := w,
        sent := if c.Enabled then events.map (fun event =>
            { event := event,
              msg := { NewMessage chat (ToMessage event) with DisableNotification := c.Silent } })
          else [],
        status := .running } := by
  simp only [record, recordIn, hinit] at hrec
  cases hl : lookup chat es with
  | none => simp [hl] at hrec
  | some v =>
    rw [hl] at hrec
    simp only [Option.map_some', Option.some.injEq] at hrec
    unfold pollCycle
    rw [Get_seen w chat es v hinit hl]
    simp only [hrec]
    by_cases he : c.Enabled = true <;> simp [he]

theorem pollCycle_of_unseen (ToMessage : Event → String) (chat : Int) (w : World)
    (es : ChatMap) (events : List Event)
    (hinit : w.botState.ChatStates = some es) (hl : lookup chat es = none) :
    pollCycle ToMessage chat w events =
      { world := { w with heap := w.heap ++ [{ Enabled := true, Silent := false }],
                          botState := { ChatStates := some (es ++ [(chat, some w.heap.length)]) } },
        sent := events.map (fun event =>
            { event := event, msg := NewMessage chat (ToMessage event) }),
        status := .running } := by
  unfold pollCycle
  rw [Get_unseen w chat es hinit hl]
  simp [deref, NewMessage]

/-- C4 (as stated, refuted): on the store LoadState returns for a state file
holding an empty JSON object the primary destination 42 is unseen, yet a poll
cycle with one fetched event sends nothing: Get panics on the nil map. -/
theorem pollCycle_nil_map_sends_nothing :
    record (LoadState emptyObjectFile) 42 = none ∧
    (pollCycle payloadText 42 (LoadState emptyObjectFile) [eventX]).sent = [] ∧
    (pollCycle payloadText 42 (LoadState emptyObjectFile) [eventX]).status
      = .panicked .assignToNilMap := by
  decide

theorem mainLoop_events (ToMessage : Event → String) (chat : Int) (cycles : List (List Event)) :
    ∀ (w : World) (es : ChatMap), w.botState.ChatStates = some es →
      (lookup chat es = none ∨ ∃ c, record w chat = some (some c) ∧ c.Enabled = true) →
      (mainLoop ToMessage chat w cycles).status = .running ∧
      (mainLoop ToMessage chat w cycles).sent.map Delivery.event = cycles.flatten ∧
      ∀ d ∈ (mainLoop ToMessage chat w cycles).sent,
        d.msg.ChatID = chat ∧ d.msg.Text = ToMessage d.event := by
  induction cycles with
  | nil =>
    intro w es _ _
    simp [mainLoop]
  | cons evs rest ih =>
    intro w es hinit hrec
    rcases hrec with hl | ⟨c, hc, hen⟩
    · have hp := pollCycle_of_unseen ToMessage chat w es evs hinit hl
      have hnext := ih
        { w with heap := w.heap ++ [{ Enabled := true, Silent := false }],
                 botState := { ChatStates := some (es ++ [(chat, some w.heap.length)]) } }
        (es ++ [(chat, some w.heap.length)]) rfl
        (Or.inr ⟨{ Enabled := true, Silent := false },
          by simp [record, recordIn, lookup_append_new chat _ es hl, deref], rfl⟩)
      obtain ⟨h1, h2, h3⟩ := hnext
      simp only [mainLoop, hp]
      refine ⟨h1, ?_, ?_⟩
      · simp [List.map_map, Function.comp_def, h2]
      · intro d hd
        simp only [List.mem_append, List.mem_map] at hd
        rcases hd with ⟨ev, _, rfl⟩ | hd
        · exact ⟨rfl, rfl⟩
        · exact h3 d hd
    · have hp := pollCycle_of_record ToMessage chat w es c evs hinit hc
      obtain ⟨h1, h2, h3⟩ := ih w es hinit (Or.inr ⟨c, hc, hen⟩)
      simp only [mainLoop, hp, hen, if_true]
      refine ⟨h1, ?_, ?_⟩
      · simp [List.map_map, Function.comp_def, h2]
      · intro d hd
        simp only [List.mem_append, List.mem_map] at hd
        rcases hd with ⟨ev, _, rfl⟩ | hd
        · exact ⟨rfl, rfl⟩
        · exact h3 d hd

/-- C6 (as stated, refuted): with the primary destination 42 enabled, two poll
cycles that both receive the event list [X] from the fetch send the event with
ID X twice. -/
theorem mainLoop_repeats_repeated_event :
    enabledOf storeMuted 42 = some true ∧
    (deliveriesOf "X" (mainLoop payloadText 42 storeMuted [[eventX], [eventX]]).sent).length
      = 2 := by
  decide

/-- C6 (amended): the main loop keeps no record of sent events.  With the
primary destination enabled (or unseen) in a store with an initialised mapping,
a sequence of poll cycles sends one message for every event of every fetched
list, in order; so the number of sends for an event ID equals the number of
times the fetch returned that ID over all cycles, and an ID is sent at most
once exactly when the fetch returned it at most once. -/
theorem mainLoop_sends_every_fetched_event (ToMessage : Event → String) (chat : Int)
    (w : World) (es : ChatMap) (cycles : List (List Event))
    (hinit : w.botState.ChatStates = some es)
    (hrec : lookup chat es = none ∨ ∃ c, record w chat = some (some c) ∧ c.Enabled = true) :
    (mainLoop ToMessage chat w cycles).status = .running ∧
    (mainLoop ToMessage chat w cycles).sent.map Delivery.event = cycles.flatten ∧
    (∀ d ∈ (mainLoop ToMessage chat w cycles).sent, d.msg.ChatID = chat) ∧
    ∀ X, (deliveriesOf X (mainLoop ToMessage chat w cycles).sent).length
      = (cycles.flatten.filter (fun ev => ev.ID = X)).length := by
  obtain ⟨h1, h2, h3⟩ := mainLoop_events ToMessage chat cycles w es hinit hrec
  refine ⟨h1, h2, fun d hd => (h3 d hd).1, ?_⟩
  intro X
  rw [← h2, List.filter_map, List.length_map]
  rfl

theorem mainLoop_sends_every_fetched_event_witness :
    (mainLoop payloadText 42 storeMuted [[eventX], [eventX]]).status = .running ∧
    (mainLoop payloadText 42 storeMuted [[eventX], [eventX]]).sent.map Delivery.event
      = [[eventX], [eventX]].flatten ∧
    (∀ d ∈ (mainLoop payloadText 42 storeMuted [[eventX], [eventX]]).sent, d.msg.ChatID = 42) ∧
    ∀ X, (deliveriesOf X (mainLoop payloadText 42 storeMuted [[eventX], [eventX]]).sent).length
      = ([[eventX], [eventX]].flatten.filter (fun ev => ev.ID = X)).length :=
  mainLoop_sends_every_fetched_event payloadText 42 storeMuted [(42, some 0)]
    [[eventX], [eventX]] rfl (Or.inr ⟨_, rfl, rfl⟩)

/-- C8 (the code at the failing inputs): LoadState returns an empty initialised
store when the file is absent or is not JSON, but for the decodable contents
`null` and `{}` it returns a store with a nil mapping, on which Get panics, and
for `{"chat_states":{"42":null}}` a store with a nil record under 42, which Get
returns as a nil pointer and the command handler and a poll cycle dereference. -/
theorem LoadState_decodable_file_breaks_Get :
    (LoadState File.absent).botState.ChatStates = some [] ∧
    (LoadState File.garbage).botState.ChatStates = some [] ∧
    (LoadState nullFile).botState.ChatStates = none ∧
    (LoadState emptyObjectFile).botState.ChatStates = none ∧
    Get (LoadState emptyObjectFile) 42 = .error .assignToNilMap ∧
    Get (LoadState nullFile) 42 = .error .assignToNilMap ∧
    record (LoadState nullRecordFile) 42 = some none ∧
    Get (LoadState nullRecordFile) 42 = .ok (LoadState nullRecordFile, none) ∧
    (PongBot (LoadState nullRecordFile) [(commandUpdate 42 "stop", allOk)]).status
      = .panicked .nilDereference ∧
    (pollCycle payloadText 42 (LoadState nullRecordFile) [eventX]).status
      = .panicked .nilDereference := by
  refine ⟨rfl, rfl, rfl, rfl, rfl, rfl, rfl, rfl, ?_, ?_⟩ <;> decide

theorem commandSwitch_nothing (command : String)
    (h1 : command ≠ "start") (h2 : command ≠ "stop") (h3 : command ≠ "mute")
    (h4 : command ≠ "unmute") : (commandSwitch command).mutation = .nothing := by
  unfold commandSwitch
  split <;> first | rfl | contradiction

theorem commandSwitch_unknown (command : String)
    (h0 : command ≠ "help") (h1 : command ≠ "start") (h2 : command ≠ "stop")
    (h3 : command ≠ "mute") (h4 : command ≠ "unmute") (h5 : command ≠ "ping")
    (h6 : command ≠ "pong") (h7 : command ≠ "status") (h8 : command ≠ "menu") :
    commandSwitch command
      = { Text := "I don't know that command.", ReplyMarkup := none, mutation := .nothing } := by
  unfold commandSwitch
  split <;> first | contradiction | rfl

theorem callbackSwitch_unknown (data : String)
    (h1 : data ≠ "cmd_ping") (h2 : data ≠ "cmd_status") (h3 : data ≠ "cmd_help") :
    callbackSwitch data = "Unknown command" := by
  unfold callbackSwitch
  split <;> first | contradiction | rfl

theorem handleCommand_nothing (w w1 : World) (st : Option Ptr) (m : Message) (o : Oracle)
    (hG : Get w m.ChatID = .ok (w1, st))
    (hmu : (commandSwitch m.Command).mutation = .nothing) :
    handleCommand w m o =
      { world := w1,
        calls := [.Send { NewMessage m.ChatID (commandSwitch m.Command).Text with
                          ReplyMarkup := (commandSwitch m.Command).ReplyMarkup }],
        status := if o.sendOk then .running else .exited } := by
  unfold handleCommand
  rw [hG]
  simp [applyMutation, hmu]

theorem handleUpdate_command_only (w : World) (m : Message) (o : Oracle)
    (hc : m.IsCommand = true) :
    handleUpdate w { Message := some m, CallbackQuery := none } o = handleCommand w m o := by
  unfold handleUpdate
  simp only [hc, if_true]
  cases (handleCommand w m o).status <;> rfl

/-- C9 (as stated, refuted): the reply to the menu selection cmd_help is not
the reply to the help command, and the reply to an unrecognised selection is
not the reply to an unrecognised command. -/
theorem callback_help_and_fallback_differ :
    (handleUpdate (freshStore .absent) (callbackUpdate 42 "cmd_help") allOk).calls
      = [.Request "cb", .Send (NewMessage 42
          "Available commands: /ping, /status, /pong, /menu, /start, /stop, /mute, /unmute")] ∧
    (handleUpdate (freshStore .absent) (commandUpdate 42 "help") allOk).calls
      = [.Send (NewMessage 42
          "Available commands:\n/start, /stop, /mute, /unmute, /ping, /status, /menu")] ∧
    (handleUpdate (freshStore .absent) (callbackUpdate 42 "cmd_other") allOk).calls
      = [.Request "cb", .Send (NewMessage 42 "Unknown command")] ∧
    (handleUpdate (freshStore .absent) (commandUpdate 42 "other") allOk).calls
      = [.Send (NewMessage 42 "I don't know that command.")] ∧
    callbackSwitch "cmd_help" ≠ (commandSwitch "help").Text ∧
    callbackSwitch "cmd_other" ≠ (commandSwitch "other").Text := by
  decide

/-- C9 (amended): handling a menu selection leaves the whole store as it was,
answers the callback and sends one reply to the chat of the menu message; the
reply text for cmd_ping and cmd_status is the reply text of the commands ping
and status (which the command handler sends on any store with an initialised
mapping), the reply for cmd_help is the handler's own list of commands, and any
other selection gets the text "Unknown command". -/
theorem callback_reply_and_frame (w : World) (cq : CallbackQuery) (o : Oracle)
    (wc : World) (es : ChatMap) (chat : Int) (hinit : wc.botState.ChatStates = some es) :
    (handleUpdate w { Message := none, CallbackQuery := some cq } o).world = w ∧
    (∀ m, cq.Message = some m →
      (handleUpdate w { Message := none, CallbackQuery := some cq } o).calls
        = [.Request cq.ID, .Send (NewMessage m.ChatID (callbackSwitch cq.Data))] ∧
      (handleUpdate w { Message := none, CallbackQuery := some cq } o).status = .running) ∧
    callbackSwitch "cmd_ping" = "pong" ∧
    (handleUpdate wc (commandUpdate chat "ping") o).calls = [.Send (NewMessage chat "pong")] ∧
    callbackSwitch "cmd_status" = "I'm ok." ∧
    (handleUpdate wc (commandUpdate chat "status") o).calls
      = [.Send (NewMessage chat "I'm ok.")] ∧
    callbackSwitch "cmd_help"
      = "Available commands: /ping, /status, /pong, /menu, /start, /stop, /mute, /unmute" ∧
    (cq.Data ≠ "cmd_ping" → cq.Data ≠ "cmd_status" → cq.Data ≠ "cmd_help" →
      callbackSwitch cq.Data = "Unknown command") := by
  have hget : ∃ w1 st, Get wc chat = .ok (w1, st) := by
    cases hl : lookup chat es with
    | none => exact ⟨_, _, Get_unseen wc chat es hinit hl⟩
    | some v => exact ⟨_, _, Get_seen wc chat es v hinit hl⟩
  obtain ⟨w1, st, hG⟩ := hget
  refine ⟨?_, ?_, rfl, ?_, rfl, ?_, rfl, callbackSwitch_unknown cq.Data⟩
  · simp only [handleUpdate, handleCallback]
    cases cq.Message <;> rfl
  · intro m hm
    simp [handleUpdate, handleCallback, hm]
  · rw [commandUpdate, handleUpdate_command_only _ _ _ rfl,
      handleCommand_nothing wc w1 st { ChatID := chat, IsCommand := true, Command := "ping" }
        o hG rfl]
    rfl
  · rw [commandUpdate, handleUpdate_command_only _ _ _ rfl,
      handleCommand_nothing wc w1 st { ChatID := chat, IsCommand := true, Command := "status" }
        o hG rfl]
    rfl

theorem callback_reply_and_frame_witness :
    (handleUpdate storeWithSeven (callbackUpdate 7 "cmd_ping") allOk).calls
        = [.Request "cb", .Send (NewMessage 7 (callbackSwitch "cmd_ping"))] ∧
      (handleUpdate storeWithSeven (callbackUpdate 7 "cmd_ping") allOk).status = .running :=
  (callback_reply_and_frame storeWithSeven
    { ID := "cb", Message := some { ChatID := 7, IsCommand := false, Command := "" },
      Data := "cmd_ping" } allOk storeWithSeven [(7, some 0)] 7 rfl).2.1
    { ChatID := 7, IsCommand := false, Command := "" } rfl

/-- C10 (as stated, refuted): a ping command from the unseen chat 42 on the
empty store adds a record under 42 to the mapping. -/
theorem ping_from_unseen_chat_adds_record :
    (freshStore .absent).botState.ChatStates = some [] ∧
    (handleUpdate (freshStore .absent) (commandUpdate 42 "ping") allOk).world.botState.ChatStates
      = some [(42, some 0)] ∧
    record (freshStore .absent) 42 = none ∧
    record (handleUpdate (freshStore .absent) (commandUpdate 42 "ping") allOk).world 42
      = some (some { Enabled := true, Silent := false }) := by
  decide

/-- C10 (amended): on a store with an initialised mapping, a command other
than start, stop, mute and unmute (ping, pong, status, help, menu or an
unrecognised one) leaves the state file alone and, when the chat already has a
record, leaves the whole store as it was; when the chat is unseen, the Get the
handler makes for every command adds the default record (Enabled = true,
Silent = false) under the chat and changes no record of another ID.  The reply
is the text of the switch: "pong" for ping and "ping" for pong. -/
theorem readonly_command_frame (w : World) (es : ChatMap) (m : Message) (o : Oracle)
    (hinit : w.botState.ChatStates = some es) (hmem : PtrsValid w = true)
    (hc : m.IsCommand = true)
    (h1 : m.Command ≠ "start") (h2 : m.Command ≠ "stop")
    (h3 : m.Command ≠ "mute") (h4 : m.Command ≠ "unmute") :
    (handleUpdate w { Message := some m, CallbackQuery := none } o).world.disk = w.disk ∧
    ((lookup m.ChatID es).isSome = true →
      (handleUpdate w { Message := some m, CallbackQuery := none } o).world = w) ∧
    (lookup m.ChatID es = none →
      (handleUpdate w { Message := some m, CallbackQuery := none } o).world.botState.ChatStates
        = some (es ++ [(m.ChatID, some w.heap.length)]) ∧
      record (handleUpdate w { Message := some m, CallbackQuery := none } o).world m.ChatID
        = some (some { Enabled := true, Silent := false }) ∧
      ∀ E, E ≠ m.ChatID →
        record (handleUpdate w { Message := some m, CallbackQuery := none } o).world E
          = record w E) ∧
    (handleUpdate w { Message := some m, CallbackQuery := none } o).calls
      = [.Send { NewMessage m.ChatID (commandSwitch m.Command).Text with
                  ReplyMarkup := (commandSwitch m.Command).ReplyMarkup }] ∧
    (m.Command = "ping" →
      (handleUpdate w { Message := some m, CallbackQuery := none } o).calls
        = [.Send (NewMessage m.ChatID "pong")]) ∧
    (m.Command = "pong" →
      (handleUpdate w { Message := some m, CallbackQuery := none } o).calls
        = [.Send (NewMessage m.ChatID "ping")]) := by
  have hmu := commandSwitch_nothing m.Command h1 h2 h3 h4
  rw [handleUpdate_command_only w m o hc]
  cases hl : lookup m.ChatID es with
  | some v =>
    have hh := handleCommand_nothing w w v m o (Get_seen w m.ChatID es v hinit hl) hmu
    rw [hh]
    refine ⟨rfl, fun _ => rfl, fun h => by simp at h, rfl, ?_, ?_⟩
    · intro hp
      simp [hp, commandSwitch, NewMessage]
    · intro hp
      simp [hp, commandSwitch, NewMessage]
  | none =>
    have hh := handleCommand_nothing w _ _ m o (Get_unseen w m.ChatID es hinit hl) hmu
    rw [hh]
    refine ⟨rfl, fun h => by simp at h, fun _ => ⟨rfl, ?_, ?_⟩, rfl, ?_, ?_⟩
    · simp [record, recordIn, lookup_append_new m.ChatID _ es hl, deref]
    · intro E hE
      simp only [record, recordIn, hinit, lookup_append_other m.ChatID E _ es hl hE]
      cases hq : lookup E es with
      | none => rfl
      | some v =>
        cases v with
        | none => rfl
        | some q =>
          have hlt := ptr_lt_of_valid w es hinit hmem E q hq
          simp [deref_append_of_lt w.heap _ q hlt]
    · intro hp
      simp [hp, commandSwitch, NewMessage]
    · intro hp
      simp [hp, commandSwitch, NewMessage]

theorem readonly_command_frame_witness :
    (handleUpdate storeWithSeven (commandUpdate 7 "ping") allOk).world = storeWithSeven ∧
    (handleUpdate storeWithSeven (commandUpdate 7 "ping") allOk).calls
      = [.Send (NewMessage 7 "pong")] :=
  ⟨(readonly_command_frame storeWithSeven [(7, some 0)]
      { ChatID := 7, IsCommand := true, Command := "ping" } allOk rfl (by decide) rfl
      (by decide) (by decide) (by decide) (by decide)).2.1 (by decide),
   (readonly_command_frame storeWithSeven [(7, some 0)]
      { ChatID := 7, IsCommand := true, Command := "ping" } allOk rfl (by decide) rfl
      (by decide) (by decide) (by decide) (by decide)).2.2.2.2.1 rfl⟩

theorem wf_iff (w : World) :
    WellFormed w = true ↔
      ∃ es, w.botState.ChatStates = some es ∧ ptrsValidIn w.heap es = true ∧
        (∀ e ∈ es, e.2.isSome = true) ∧ (es.filterMap Prod.snd).Nodup := by
  cases hcs : w.botState.ChatStates with
  | none => simp [WellFormed, hcs]
  | some es =>
    simp [WellFormed, PtrsValid, NoNilRecord, Unshared, hcs, and_assoc]

theorem mem_filterMap_lt (h : Heap) (es : ChatMap) (hv : ptrsValidIn h es = true) (p : Ptr)
    (hp : p ∈ es.filterMap Prod.snd) : p < h.length := by
  simp only [List.mem_filterMap] at hp
  obtain ⟨e, he, hsnd⟩ := hp
  simp only [ptrsValidIn, List.all_eq_true] at hv
  have := hv e he
  obtain ⟨k, v⟩ := e
  simp only at hsnd
  subst hsnd
  simpa using this

theorem mem_filterMap_of_lookup (k : Int) (p : Ptr) (es : ChatMap)
    (h : lookup k es = some (some p)) : p ∈ es.filterMap Prod.snd := by
  simp only [List.mem_filterMap]
  exact ⟨(k, some p), mem_of_lookup k _ es h, rfl⟩

theorem unshared_lookup_inj (es : ChatMap) (hnd : (es.filterMap Prod.snd).Nodup)
    (D E : Int) (p : Ptr) (hD : lookup D es = some (some p))
    (hE : lookup E es = some (some p)) : D = E := by
  induction es with
  | nil => simp [lookup] at hD
  | cons e es ih =>
    obtain ⟨k1, v1⟩ := e
    by_cases h1 : k1 = D
    · by_cases h2 : k1 = E
      · rw [← h1, ← h2]
      · exfalso
        simp only [lookup, h1, if_true, Option.some.injEq] at hD
        simp only [lookup, h2, if_false] at hE
        subst hD
        have hmem := mem_filterMap_of_lookup E p es hE
        simp only [List.filterMap_cons, List.nodup_cons] at hnd
        exact hnd.1 hmem
    · by_cases h2 : k1 = E
      · exfalso
        simp only [lookup, h2, if_true, Option.some.injEq] at hE
        simp only [lookup, h1, if_false] at hD
        subst hE
        have hmem := mem_filterMap_of_lookup D p es hD
        simp only [List.filterMap_cons, List.nodup_cons] at hnd
        exact hnd.1 hmem
      · simp only [lookup, h1, h2, if_false] at hD hE
        have hnd1 : (es.filterMap Prod.snd).Nodup := by
          cases v1 with
          | none => simpa [List.filterMap_cons] using hnd
          | some q =>
            simp only [List.filterMap_cons, List.nodup_cons] at hnd
            exact hnd.2
        exact ih hnd1 hD hE

theorem enabledOf_of_record (w : World) (D : Int) (c : ChatState)
    (h : record w D = some (some c)) : enabledOf w D = some c.Enabled := by
  simp [enabledOf, h]

theorem enabledOf_congr (w w1 : World) (D : Int) (h : record w1 D = record w D) :
    enabledOf w1 D = enabledOf w D := by
  simp [enabledOf, h]

theorem Get_wf (w : World) (D : Int) (hwf : WellFormed w = true) :
    ∃ w1 p es1 c, Get w D = .ok (w1, some p) ∧ WellFormed w1 = true ∧
      w1.botState.ChatStates = some es1 ∧ lookup D es1 = some (some p) ∧
      deref w1.heap p = some c ∧ c.Enabled = (enabledOf w D).getD true ∧
      w1.disk = w.disk ∧ ∀ E, E ≠ D → record w1 E = record w E := by
  obtain ⟨es, hinit, hv, hnn, hnd⟩ := (wf_iff w).mp hwf
  cases hl : lookup D es with
  | none =>
    refine ⟨_, w.heap.length, es ++ [(D, some w.heap.length)],
      { Enabled := true, Silent := false }, Get_unseen w D es hinit hl, ?_, rfl,
      lookup_append_new D _ es hl, by simp [deref], ?_, rfl, ?_⟩
    · refine (wf_iff _).mpr ⟨es ++ [(D, some w.heap.length)], rfl, ?_, ?_, ?_⟩
      · have h1 := ptrsValidIn_mono w.heap (w.heap ++ [{ Enabled := true, Silent := false }])
          es (by simp) hv
        simp only [ptrsValidIn, List.all_append, Bool.and_eq_true] at h1 ⊢
        exact ⟨h1, by simp⟩
      · intro e he
        simp only [List.mem_append, List.mem_singleton] at he
        rcases he with he | he
        · exact hnn e he
        · subst he; rfl
      · simp only [List.filterMap_append, List.filterMap_cons, List.filterMap_nil]
        refine List.Nodup.append hnd (List.nodup_singleton _) ?_
        intro a ha hb
        simp only [List.mem_singleton] at hb
        have := mem_filterMap_lt w.heap es hv a ha
        rw [hb] at this
        exact Nat.lt_irrefl _ this
    · simp [enabledOf, record, recordIn, hinit, hl]
    · intro E hE
      simp only [record, recordIn, hinit, lookup_append_other D E _ es hl hE]
      cases hq : lookup E es with
      | none => rfl
      | some v =>
        cases v with
        | none => rfl
        | some q =>
          have hlt := ptr_lt_of_validIn w.heap es hv E q hq
          simp [deref_append_of_lt w.heap _ q hlt]
  | some v =>
    have hsome := hnn _ (mem_of_lookup D v es hl)
    obtain ⟨p, hp⟩ := Option.isSome_iff_exists.mp hsome
    simp only at hp
    subst hp
    have hlt := ptr_lt_of_validIn w.heap es hv D p hl
    have hd : deref w.heap p = some (w.heap.get ⟨p, hlt⟩) := by
      simp [deref, List.getElem?_eq_getElem hlt]
    refine ⟨w, p, es, w.heap.get ⟨p, hlt⟩, Get_seen w D es _ hinit hl, hwf, hinit, hl, hd,
      ?_, rfl, fun _ _ => rfl⟩
    simp [enabledOf, record, recordIn, hinit, hl, hd]

theorem write_wf (w : World) (es : ChatMap) (D : Int) (p : Ptr) (c2 : ChatState) (d : File)
    (hwf : WellFormed w = true) (hinit : w.botState.ChatStates = some es)
    (hl : lookup D es = some (some p)) :
    WellFormed { heap := w.heap.set p c2, botState := w.botState, disk := d } = true ∧
    record { heap := w.heap.set p c2, botState := w.botState, disk := d } D
      = some (some c2) ∧
    ∀ E, E ≠ D →
      record { heap := w.heap.set p c2, botState := w.botState, disk := d } E = record w E := by
  obtain ⟨es1, hinit1, hv, hnn, hnd⟩ := (wf_iff w).mp hwf
  rw [hinit] at hinit1
  simp only [Option.some.injEq] at hinit1
  subst hinit1
  have hlt := ptr_lt_of_validIn w.heap es hv D p hl
  refine ⟨?_, ?_, ?_⟩
  · refine (wf_iff _).mpr ⟨es, hinit, ?_, hnn, hnd⟩
    exact ptrsValidIn_mono w.heap _ es (by simp) hv
  · simp [record, recordIn, hinit, hl, deref, List.getElem?_set, hlt]
  · intro E hE
    simp only [record, recordIn, hinit]
    cases hq : lookup E es with
    | none => rfl
    | some v =>
      cases v with
      | none => rfl
      | some q =>
        have hne : p ≠ q := by
          intro hpq
          subst hpq
          exact hE (unshared_lookup_inj es hnd E D p hq hl)
        simp [deref, List.getElem?_set, hne]

theorem Save_fst (w : World) (b : Bool) :
    ∃ d, (Save w b).1 = { heap := w.heap, botState := w.botState, disk := d } := by
  cases b with
  | true => exact ⟨_, rfl⟩
  | false => exact ⟨w.disk, rfl⟩

theorem commandSwitch_setEnabled (command : String) (b : Bool)
    (h : (commandSwitch command).mutation = .setEnabled b) :
    (command = "start" ∧ b = true) ∨ (command = "stop" ∧ b = false) := by
  unfold commandSwitch at h
  split at h <;> simp at h
  · exact Or.inl ⟨rfl, h⟩
  · exact Or.inr ⟨rfl, h⟩

theorem applyMutation_spec (w1 : World) (p : Ptr) (c : ChatState) (mu : Mutation)
    (createOk : Bool) (hd : deref w1.heap p = some c) :
    ∃ d, applyMutation w1 (some p) mu createOk =
      .ok (match mu with
        | .nothing => w1
        | .setEnabled b =>
          { heap := w1.heap.set p { c with Enabled := b }, botState := w1.botState, disk := d }
        | .setSilent b =>
          { heap := w1.heap.set p { c with Silent := b }, botState := w1.botState, disk := d }) := by
  cases mu with
  | nothing => exact ⟨w1.disk, rfl⟩
  | setEnabled b =>
    cases createOk with
    | true =>
      exact ⟨.json (encodeStateManager (w1.heap.set p { c with Enabled := b }) w1.botState),
        by simp [applyMutation, assignThrough, hd, Save]⟩
    | false => exact ⟨w1.disk, by simp [applyMutation, assignThrough, hd, Save]⟩
  | setSilent b =>
    cases createOk with
    | true =>
      exact ⟨.json (encodeStateManager (w1.heap.set p { c with Silent := b }) w1.botState),
        by simp [applyMutation, assignThrough, hd, Save]⟩
    | false => exact ⟨w1.disk, by simp [applyMutation, assignThrough, hd, Save]⟩

theorem handleCommand_wf (w : World) (m : Message) (o : Oracle) (hwf : WellFormed w = true) :
    WellFormed (handleCommand w m o).world = true ∧
    (handleCommand w m o).status = (if o.sendOk then .running else .exited) ∧
    (handleCommand w m o).calls.length = 1 ∧
    (∀ E, E ≠ m.ChatID → enabledOf (handleCommand w m o).world E = enabledOf w E) ∧
    enabledOf (handleCommand w m o).world m.ChatID =
      some (match (commandSwitch m.Command).mutation with
            | .setEnabled b => b
            | _ => (enabledOf w m.ChatID).getD true) := by
  obtain ⟨w1, p, es1, c, hG, hwf1, hinit1, hl, hd, hen, _, hothers⟩ := Get_wf w m.ChatID hwf
  obtain ⟨d, hap⟩ := applyMutation_spec w1 p c (commandSwitch m.Command).mutation o.createOk hd
  have hrec1 : record w1 m.ChatID = some (some c) := by
    simp [record, recordIn, hinit1, hl, hd]
  unfold handleCommand
  rw [hG]
  simp only [hap]
  cases hmu : (commandSwitch m.Command).mutation with
  | nothing =>
    refine ⟨hwf1, ?_, ?_, fun E hE => enabledOf_congr w w1 E (hothers E hE), ?_⟩
    · trivial
    · trivial
    · simp only [enabledOf_of_record w1 m.ChatID c hrec1, hen]
  | setEnabled b =>
    obtain ⟨h1, h2, h3⟩ := write_wf w1 es1 m.ChatID p { c with Enabled := b } d hwf1 hinit1 hl
    refine ⟨h1, ?_, ?_, fun E hE => ?_, ?_⟩
    · trivial
    · trivial
    · rw [enabledOf_congr _ _ E (h3 E hE)]
      exact enabledOf_congr w w1 E (hothers E hE)
    · exact enabledOf_of_record _ _ _ h2
  | setSilent b =>
    obtain ⟨h1, h2, h3⟩ := write_wf w1 es1 m.ChatID p { c with Silent := b } d hwf1 hinit1 hl
    refine ⟨h1, ?_, ?_, fun E hE => ?_, ?_⟩
    · trivial
    · trivial
    · rw [enabledOf_congr _ _ E (h3 E hE)]
      exact enabledOf_congr w w1 E (hothers E hE)
    · rw [enabledOf_of_record _ _ _ h2, hen]

theorem handleUpdate_world (w : World) (u : Update) (o : Oracle) :
    (handleUpdate w u o).world =
      (match u.Message with
        | none => w
        | some m => if m.IsCommand then (handleCommand w m o).world else w) := by
  obtain ⟨msg, cb⟩ := u
  cases msg with
  | none =>
    cases cb with
    | none => rfl
    | some cq =>
      simp only [handleUpdate, handleCallback]
      cases cq.Message <;> rfl
  | some m =>
    by_cases hc : m.IsCommand = true
    · simp only [handleUpdate, hc, if_true]
      cases hs : (handleCommand w m o).status with
      | running =>
        cases cb with
        | none => rfl
        | some cq =>
          simp only [handleCallback]
          cases cq.Message <;> rfl
      | exited => rfl
      | panicked p => rfl
    · simp only [handleUpdate, hc]
      cases cb with
      | none => rfl
      | some cq =>
        simp only [handleCallback]
        cases cq.Message <;> rfl

theorem handleUpdate_status (w : World) (u : Update) (o : Oracle) (hwf : WellFormed w = true) :
    (goesOn (u, o) = true → (handleUpdate w u o).status = .running) ∧
    (goesOn (u, o) = false → (handleUpdate w u o).status ≠ .running) := by
  obtain ⟨msg, cb⟩ := u
  cases msg with
  | none =>
    cases cb with
    | none => simp [goesOn, handleUpdate]
    | some cq =>
      cases hm : cq.Message <;> simp [goesOn, handleUpdate, handleCallback, hm]
  | some m =>
    by_cases hc : m.IsCommand = true
    · have hst := (handleCommand_wf w m o hwf).2.1
      cases hs : o.sendOk with
      | true =>
        rw [hs] at hst
        simp only [if_true] at hst
        cases cb with
        | none => simp [goesOn, handleUpdate, hc, hs, hst]
        | some cq =>
          cases hm : cq.Message <;> simp [goesOn, handleUpdate, handleCallback, hc, hs, hst, hm]
      | false =>
        rw [hs] at hst
        simp only [Bool.false_eq_true, if_false] at hst
        cases cb with
        | none => simp [goesOn, handleUpdate, hc, hs, hst]
        | some cq => simp [goesOn, handleUpdate, hc, hs, hst]
    · cases cb with
      | none => simp [goesOn, handleUpdate, hc]
      | some cq =>
        cases hm : cq.Message <;> simp [goesOn, handleUpdate, handleCallback, hc, hm]

theorem handleUpdate_wf (w : World) (u : Update) (o : Oracle) (D : Int)
    (hwf : WellFormed w = true) :
    WellFormed (handleUpdate w u o).world = true ∧
    (∀ b, startStopOf D u = some b → enabledOf (handleUpdate w u o).world D = some b) ∧
    (startStopOf D u = none → ∀ x, enabledOf w D = some x →
      enabledOf (handleUpdate w u o).world D = some x) := by
  rw [handleUpdate_world]
  obtain ⟨msg, cb⟩ := u
  cases msg with
  | none => exact ⟨hwf, fun b hb => by simp [startStopOf] at hb, fun _ x hx => hx⟩
  | some m =>
    by_cases hc : m.IsCommand = true
    · simp only [hc, if_true]
      obtain ⟨h1, _, _, h4, h5⟩ := handleCommand_wf w m o hwf
      refine ⟨h1, ?_, ?_⟩
      · intro b hb
        simp only [startStopOf, hc, true_and] at hb
        by_cases hD : m.ChatID = D
        · subst hD
          simp only [if_true] at hb
          rw [h5]
          by_cases hs : m.Command = "start"
          · simp only [hs, if_true, Option.some.injEq] at hb
            subst hb
            simp [hs, commandSwitch]
          · by_cases hp : m.Command = "stop"
            · rw [if_neg hs, if_pos hp] at hb
              simp only [Option.some.injEq] at hb
              subst hb
              simp [hp, commandSwitch]
            · simp [hs, hp] at hb
        · simp [hD] at hb
      · intro hnone x hx
        simp only [startStopOf, hc, true_and] at hnone
        by_cases hD : m.ChatID = D
        · subst hD
          simp only [if_true] at hnone
          rw [h5, hx]
          cases hmu : (commandSwitch m.Command).mutation with
          | nothing => rfl
          | setSilent b => rfl
          | setEnabled b =>
            exfalso
            rcases commandSwitch_setEnabled m.Command b hmu with ⟨hs, _⟩ | ⟨hp, _⟩
            · simp [hs] at hnone
            · simp [hp] at hnone
        · rw [h4 D (Ne.symm hD)]
          exact hx
    · simp only [hc]
      exact ⟨hwf, fun b hb => by simp [startStopOf, hc] at hb, fun _ x hx => hx⟩

theorem PongBot_cons_running (w : World) (u : Update) (o : Oracle)
    (rest : List (Update × Oracle)) (hs : (handleUpdate w u o).status = .running) :
    PongBot w ((u, o) :: rest) =
      { world := (PongBot (handleUpdate w u o).world rest).world,
        calls := (handleUpdate w u o).calls ++ (PongBot (handleUpdate w u o).world rest).calls,
        status := (PongBot (handleUpdate w u o).world rest).status,
        iterations := (PongBot (handleUpdate w u o).world rest).iterations + 1 } := by
  simp only [PongBot, hs]

theorem PongBot_cons_stopped (w : World) (u : Update) (o : Oracle)
    (rest : List (Update × Oracle)) (hs : (handleUpdate w u o).status ≠ .running) :
    PongBot w ((u, o) :: rest) =
      { world := (handleUpdate w u o).world, calls := (handleUpdate w u o).calls,
        status := (handleUpdate w u o).status, iterations := 1 } := by
  cases h : (handleUpdate w u o).status with
  | running => exact absurd h hs
  | exited => simp only [PongBot, h]
  | panicked p => simp only [PongBot, h]

theorem processedUpdates_cons_running (w : World) (u : Update) (o : Oracle)
    (rest : List (Update × Oracle)) (hs : (handleUpdate w u o).status = .running) :
    processedUpdates w ((u, o) :: rest)
      = u :: processedUpdates (handleUpdate w u o).world rest := by
  simp [processedUpdates, PongBot_cons_running w u o rest hs]

theorem processedUpdates_cons_stopped (w : World) (u : Update) (o : Oracle)
    (rest : List (Update × Oracle)) (hs : (handleUpdate w u o).status ≠ .running) :
    processedUpdates w ((u, o) :: rest) = [u] := by
  simp [processedUpdates, PongBot_cons_stopped w u o rest hs]

theorem PongBot_frame (D : Int) (us : List (Update × Oracle)) :
    ∀ w, WellFormed w = true →
      WellFormed (PongBot w us).world = true ∧
      ∀ x, enabledOf w D = some x → lastStartStop D (processedUpdates w us) = none →
        enabledOf (PongBot w us).world D = some x := by
  induction us with
  | nil =>
    intro w hwf
    exact ⟨hwf, fun x hx _ => hx⟩
  | cons uo rest ih =>
    intro w hwf
    obtain ⟨u, o⟩ := uo
    obtain ⟨hwf1, _, hkeep⟩ := handleUpdate_wf w u o D hwf
    by_cases hs : (handleUpdate w u o).status = .running
    · obtain ⟨hwf2, hframe⟩ := ih _ hwf1
      rw [processedUpdates_cons_running w u o rest hs, PongBot_cons_running w u o rest hs]
      refine ⟨hwf2, ?_⟩
      intro x hx hlast
      simp only [lastStartStop] at hlast
      cases hl : lastStartStop D (processedUpdates (handleUpdate w u o).world rest) with
      | some b => simp [hl] at hlast
      | none =>
        rw [hl] at hlast
        exact hframe x (hkeep hlast x hx) hl
    · rw [processedUpdates_cons_stopped w u o rest hs, PongBot_cons_stopped w u o rest hs]
      refine ⟨hwf1, ?_⟩
      intro x hx hlast
      simp only [lastStartStop] at hlast
      exact hkeep hlast x hx

theorem PongBot_last (D : Int) (us : List (Update × Oracle)) :
    ∀ w, WellFormed w = true →
      ∀ b, lastStartStop D (processedUpdates w us) = some b →
        enabledOf (PongBot w us).world D = some b := by
  induction us with
  | nil =>
    intro w _ b hb
    simp [processedUpdates, PongBot, lastStartStop] at hb
  | cons uo rest ih =>
    intro w hwf b hb
    obtain ⟨u, o⟩ := uo
    obtain ⟨hwf1, hset, _⟩ := handleUpdate_wf w u o D hwf
    by_cases hs : (handleUpdate w u o).status = .running
    · rw [processedUpdates_cons_running w u o rest hs] at hb
      rw [PongBot_cons_running w u o rest hs]
      simp only [lastStartStop] at hb
      cases hl : lastStartStop D (processedUpdates (handleUpdate w u o).world rest) with
      | some b1 =>
        rw [hl] at hb
        simp only [Option.some.injEq] at hb
        subst hb
        exact ih _ hwf1 b1 hl
      | none =>
        rw [hl] at hb
        exact (PongBot_frame D rest _ hwf1).2 b (hset b hb) hl
    · rw [processedUpdates_cons_stopped w u o rest hs] at hb
      rw [PongBot_cons_stopped w u o rest hs]
      simp only [lastStartStop] at hb
      exact hset b hb

theorem PongBot_goesOn (us : List (Update × Oracle)) :
    ∀ w, WellFormed w = true → (∀ uo ∈ us, goesOn uo = true) →
      (PongBot w us).status = .running ∧ processedUpdates w us = us.map Prod.fst := by
  induction us with
  | nil =>
    intro w _ _
    exact ⟨rfl, rfl⟩
  | cons uo rest ih =>
    intro w hwf hall
    obtain ⟨u, o⟩ := uo
    have hs := (handleUpdate_status w u o hwf).1 (hall (u, o) (by simp))
    obtain ⟨hwf1, _, _⟩ := handleUpdate_wf w u o 0 hwf
    obtain ⟨h1, h2⟩ := ih _ hwf1 (fun uo h => hall uo (List.mem_cons_of_mem _ h))
    rw [processedUpdates_cons_running w u o rest hs, PongBot_cons_running w u o rest hs]
    exact ⟨h1, by simp [h2]⟩

/-- C2 (as stated, refuted): on the store LoadState returns for a state file
holding an empty JSON object, a stop command from chat 42 whose reply could be
sent does not leave Get(42).Enabled = false: the handler panics in Get, no
record exists under 42, and a later Get(42) panics as well. -/
theorem PongBot_stop_on_nil_map_panics :
    lastStartStop 42 [commandUpdate 42 "stop"] = some false ∧
    goesOn (commandUpdate 42 "stop", allOk) = true ∧
    (PongBot (LoadState emptyObjectFile) [(commandUpdate 42 "stop", allOk)]).status
      = .panicked .assignToNilMap ∧
    enabledOf (PongBot (LoadState emptyObjectFile) [(commandUpdate 42 "stop", allOk)]).world 42
      = none ∧
    Get (PongBot (LoadState emptyObjectFile) [(commandUpdate 42 "stop", allOk)]).world 42
      = .error .assignToNilMap := by
  refine ⟨by decide, by decide, by decide, by decide, rfl⟩

/-- C2 (amended): on a store whose mapping is initialised, whose records are
non-nil and not shared between IDs, for every chat D and every sequence of
updates given to the command handler: if D issued a start or stop command among
the updates the handler processed before it ended, the record of D afterwards,
which Get(D) returns, has Enabled equal to the effect of the last such command
(true for start, false for stop), whatever other chats sent and whatever other
commands D sent.  The handler processes all updates when every command reply is
sent and every callback carries its message. -/
theorem PongBot_enabled_is_last_start_stop (w : World) (D : Int)
    (us : List (Update × Oracle)) (b : Bool)
    (hwf : WellFormed w = true)
    (hlast : lastStartStop D (processedUpdates w us) = some b) :
    enabledOf (PongBot w us).world D = some b ∧
    (∃ w2 p c, Get (PongBot w us).world D = .ok (w2, some p) ∧
      deref w2.heap p = some c ∧ c.Enabled = b) ∧
    ((∀ uo ∈ us, goesOn uo = true) →
      (PongBot w us).status = .running ∧ processedUpdates w us = us.map Prod.fst) := by
  have hen := PongBot_last D us w hwf b hlast
  have hwf1 := (PongBot_frame D us w hwf).1
  refine ⟨hen, ?_, PongBot_goesOn us w hwf⟩
  obtain ⟨w2, p, _, c, hG, _, _, _, hd, hc, _, _⟩ := Get_wf (PongBot w us).world D hwf1
  rw [hen] at hc
  exact ⟨w2, p, c, hG, hd, hc⟩

theorem PongBot_enabled_is_last_start_stop_witness :
    enabledOf (PongBot (freshStore .absent) mixedUpdates).world 42 = some false ∧
    (∃ w2 p c, Get (PongBot (freshStore .absent) mixedUpdates).world 42 = .ok (w2, some p) ∧
      deref w2.heap p = some c ∧ c.Enabled = false) ∧
    ((∀ uo ∈ mixedUpdates, goesOn uo = true) →
      (PongBot (freshStore .absent) mixedUpdates).status = .running ∧
      processedUpdates (freshStore .absent) mixedUpdates = mixedUpdates.map Prod.fst) :=
  PongBot_enabled_is_last_start_stop (freshStore .absent) 42 mixedUpdates false
    (by decide) (by decide)

/-- C7 (as stated, refuted): when the reply to a ping command cannot be sent,
the handler ends the process and never handles the next update. -/
theorem command_reply_failure_is_fatal :
    (PongBot (freshStore .absent)
      [(commandUpdate 42 "ping", sendFails), (commandUpdate 42 "status", allOk)]).status
      = .exited ∧
    (PongBot (freshStore .absent)
      [(commandUpdate 42 "ping", sendFails), (commandUpdate 42 "status", allOk)]).iterations
      = 1 ∧
    (PongBot (freshStore .absent)
      [(commandUpdate 42 "ping", sendFails), (commandUpdate 42 "status", allOk)]).calls
      = [.Send (NewMessage 42 "pong")] := by
  decide

/-- C7 (amended): a failure to send the reply to a menu callback is not fatal:
whatever the sends return, the handler keeps running, leaves the store as it
was and goes on to the next update.  A failure to send the reply to a command
message is fatal: on a well-formed store the handler ends the process through
Fatalln after the one send and processes no later update; when that send
succeeds the handler goes on. -/
theorem reply_failure_fatal_only_for_commands (w : World) (cq : CallbackQuery)
    (m cm : Message) (o : Oracle) (rest : List (Update × Oracle))
    (hm : cq.Message = some m) (hwf : WellFormed w = true) (hc : cm.IsCommand = true) :
    (handleUpdate w { Message := none, CallbackQuery := some cq } o).status = .running ∧
    (handleUpdate w { Message := none, CallbackQuery := some cq } o).world = w ∧
    (PongBot w (({ Message := none, CallbackQuery := some cq }, o) :: rest)).iterations
      = (PongBot w rest).iterations + 1 ∧
    (PongBot w (({ Message := none, CallbackQuery := some cq }, o) :: rest)).status
      = (PongBot w rest).status ∧
    (o.sendOk = false →
      (handleUpdate w { Message := some cm, CallbackQuery := none } o).status = .exited ∧
      (PongBot w (({ Message := some cm, CallbackQuery := none }, o) :: rest)).status
        = .exited ∧
      (PongBot w (({ Message := some cm, CallbackQuery := none }, o) :: rest)).iterations = 1 ∧
      (PongBot w (({ Message := some cm, CallbackQuery := none }, o) :: rest)).calls.length
        = 1) ∧
    (o.sendOk = true →
      (handleUpdate w { Message := some cm, CallbackQuery := none } o).status = .running ∧
      (PongBot w (({ Message := some cm, CallbackQuery := none }, o) :: rest)).iterations
        = (PongBot (handleCommand w cm o).world rest).iterations + 1) := by
  have hs1 : (handleUpdate w { Message := none, CallbackQuery := some cq } o).status
      = .running := by
    simp [handleUpdate, handleCallback, hm]
  have hw1 : (handleUpdate w { Message := none, CallbackQuery := some cq } o).world = w := by
    rw [handleUpdate_world]
  obtain ⟨_, hst, hlen, _, _⟩ := handleCommand_wf w cm o hwf
  refine ⟨hs1, hw1, ?_, ?_, ?_, ?_⟩
  · rw [PongBot_cons_running w _ o rest hs1, hw1]
  · rw [PongBot_cons_running w _ o rest hs1, hw1]
  · intro hsend
    have hs2 : (handleUpdate w { Message := some cm, CallbackQuery := none } o).status
        = .exited := by
      rw [handleUpdate_command_only w cm o hc, hst, hsend]
      rfl
    have hne : (handleUpdate w { Message := some cm, CallbackQuery := none } o).status
        ≠ .running := by
      rw [hs2]
      exact fun h => Status.noConfusion h
    refine ⟨hs2, ?_, ?_, ?_⟩
    · rw [PongBot_cons_stopped w _ o rest hne]
      exact hs2
    · rw [PongBot_cons_stopped w _ o rest hne]
    · rw [PongBot_cons_stopped w _ o rest hne, handleUpdate_command_only w cm o hc]
      exact hlen
  · intro hsend
    have hs2 : (handleUpdate w { Message := some cm, CallbackQuery := none } o).status
        = .running := by
      rw [handleUpdate_command_only w cm o hc, hst, hsend]
      rfl
    refine ⟨hs2, ?_⟩
    rw [PongBot_cons_running w _ o rest hs2, handleUpdate_command_only w cm o hc]

theorem reply_failure_fatal_only_for_commands_witness :
    (PongBot (freshStore .absent)
      ((commandUpdate 42 "ping", sendFails) :: [(commandUpdate 42 "status", allOk)])).status
        = .exited ∧
    (PongBot (freshStore .absent)
      ((callbackUpdate 42 "cmd_ping", sendFails) :: [(commandUpdate 42 "status", allOk)])).status
        = (PongBot (freshStore .absent) [(commandUpdate 42 "status", allOk)]).status :=
  ⟨((reply_failure_fatal_only_for_commands (freshStore .absent)
      { ID := "cb", Message := some { ChatID := 42, IsCommand := false, Command := "" },
        Data := "cmd_ping" }
      { ChatID := 42, IsCommand := false, Command := "" }
      { ChatID := 42, IsCommand := true, Command := "ping" }
      sendFails [(commandUpdate 42 "status", allOk)] rfl (by decide) rfl).2.2.2.2.1 rfl).2.1,
   (reply_failure_fatal_only_for_commands (freshStore .absent)
      { ID := "cb", Message := some { ChatID := 42, IsCommand := false, Command := "" },
        Data := "cmd_ping" }
      { ChatID := 42, IsCommand := false, Command := "" }
      { ChatID := 42, IsCommand := true, Command := "ping" }
      sendFails [(commandUpdate 42 "status", allOk)] rfl (by decide) rfl).2.2.2.1⟩

theorem record_of_enabledOf (w : World) (D : Int) (b : Bool) (h : enabledOf w D = some b) :
    ∃ c, record w D = some (some c) ∧ c.Enabled = b := by
  unfold enabledOf at h
  split at h
  · rename_i c hc
    simp only [Option.some.injEq] at h
    exact ⟨c, hc, h⟩
  · simp at h

/-- C4 (amended): on a store whose mapping is initialised and whose record
under the primary destination, if there is one, is not nil, a poll cycle keeps
running; it sends nothing when that record has Enabled = false, and otherwise
(also when the destination was unseen) exactly one message per fetched event, in
fetch order, each to the primary destination.  Scenario, from any store with an
initialised mapping and non-nil, unshared records: after a stop command from 42
the record of 42 has Enabled = false and a cycle with three events sends
nothing; after a start command the next cycle with one event sends exactly one
message, to 42. -/
theorem pollCycle_sends_iff_enabled (ToMessage : Event → String) (chat : Int) (w : World)
    (es : ChatMap) (events : List Event) (e1 e2 e3 e : Event)
    (hinit : w.botState.ChatStates = some es)
    (hrec : lookup chat es = none ∨ ∃ c, record w chat = some (some c)) :
    (pollCycle ToMessage chat w events).status = .running ∧
    (enabledOf w chat = some false → (pollCycle ToMessage chat w events).sent = []) ∧
    (enabledOf w chat ≠ some false →
      (pollCycle ToMessage chat w events).sent.map Delivery.event = events ∧
      (pollCycle ToMessage chat w events).sent.length = events.length ∧
      ∀ d ∈ (pollCycle ToMessage chat w events).sent,
        d.msg.ChatID = chat ∧ d.msg.Text = ToMessage d.event) ∧
    (∀ (ws : World) (o1 o2 : Oracle), WellFormed ws = true →
      enabledOf (handleUpdate ws (commandUpdate 42 "stop") o1).world 42 = some false ∧
      (pollCycle ToMessage 42 (handleUpdate ws (commandUpdate 42 "stop") o1).world
        [e1, e2, e3]).sent = [] ∧
      (pollCycle ToMessage 42
        (handleUpdate
          (pollCycle ToMessage 42 (handleUpdate ws (commandUpdate 42 "stop") o1).world
            [e1, e2, e3]).world
          (commandUpdate 42 "start") o2).world
        [e]).sent.map Delivery.event = [e] ∧
      ∀ d ∈ (pollCycle ToMessage 42
        (handleUpdate
          (pollCycle ToMessage 42 (handleUpdate ws (commandUpdate 42 "stop") o1).world
            [e1, e2, e3]).world
          (commandUpdate 42 "start") o2).world
        [e]).sent, d.msg.ChatID = 42) := by
  refine ⟨?_, ?_, ?_, ?_⟩
  · rcases hrec with hl | ⟨c, hc⟩
    · rw [pollCycle_of_unseen ToMessage chat w es events hinit hl]
    · rw [pollCycle_of_record ToMessage chat w es c events hinit hc]
  · intro hen
    rcases hrec with hl | ⟨c, hc⟩
    · simp [enabledOf, record, recordIn, hinit, hl] at hen
    · rw [pollCycle_of_record ToMessage chat w es c events hinit hc]
      simp only [enabledOf, hc, Option.some.injEq] at hen
      simp [hen]
  · intro hen
    rcases hrec with hl | ⟨c, hc⟩
    · rw [pollCycle_of_unseen ToMessage chat w es events hinit hl]
      refine ⟨by simp [List.map_map, Function.comp_def], by simp, ?_⟩
      intro d hd
      simp only [List.mem_map] at hd
      obtain ⟨ev, _, rfl⟩ := hd
      exact ⟨rfl, rfl⟩
    · rw [pollCycle_of_record ToMessage chat w es c events hinit hc]
      simp only [enabledOf, hc, ne_eq, Option.some.injEq, Bool.not_eq_false] at hen
      simp only [hen, if_true]
      refine ⟨by simp [List.map_map, Function.comp_def], by simp, ?_⟩
      intro d hd
      simp only [List.mem_map] at hd
      obtain ⟨ev, _, rfl⟩ := hd
      exact ⟨rfl, rfl⟩
  · intro ws o1 o2 hwf
    obtain ⟨hwf1, hset1, _⟩ := handleUpdate_wf ws (commandUpdate 42 "stop") o1 42 hwf
    have hen1 := hset1 false (by decide)
    obtain ⟨c1, hc1, hc1e⟩ := record_of_enabledOf _ _ _ hen1
    obtain ⟨es1, hinit1, _⟩ := (wf_iff _).mp hwf1
    have hp1 := pollCycle_of_record ToMessage 42 _ es1 c1 [e1, e2, e3] hinit1 hc1
    obtain ⟨hwf2, hset2, _⟩ := handleUpdate_wf
      (handleUpdate ws (commandUpdate 42 "stop") o1).world (commandUpdate 42 "start") o2 42 hwf1
    have hen2 := hset2 true (by decide)
    obtain ⟨c2, hc2, hc2e⟩ := record_of_enabledOf _ _ _ hen2
    obtain ⟨es2, hinit2, _⟩ := (wf_iff _).mp hwf2
    have hp2 := pollCycle_of_record ToMessage 42 _ es2 c2 [e] hinit2 hc2
    refine ⟨hen1, ?_, ?_, ?_⟩
    · rw [hp1, hc1e]
      rfl
    · rw [hp1, hp2, hc2e]
      rfl
    · rw [hp1, hp2, hc2e]
      intro d hd
      simp only [if_true, List.map_cons, List.map_nil, List.mem_singleton] at hd
      subst hd
      rfl

theorem pollCycle_sends_iff_enabled_witness :
    ((pollCycle payloadText 42 storeMuted [eventX]).sent.map Delivery.event = [eventX] ∧
      (pollCycle payloadText 42 storeMuted [eventX]).sent.length = [eventX].length ∧
      ∀ d ∈ (pollCycle payloadText 42 storeMuted [eventX]).sent,
        d.msg.ChatID = 42 ∧ d.msg.Text = payloadText d.event) ∧
    (enabledOf (handleUpdate (freshStore .absent) (commandUpdate 42 "stop") allOk).world 42
        = some false ∧
      (pollCycle payloadText 42
        (handleUpdate (freshStore .absent) (commandUpdate 42 "stop") allOk).world
        [eventX, eventX, eventX]).sent = [] ∧
      (pollCycle payloadText 42
        (handleUpdate
          (pollCycle payloadText 42
            (handleUpdate (freshStore .absent) (commandUpdate 42 "stop") allOk).world
            [eventX, eventX, eventX]).world
          (commandUpdate 42 "start") allOk).world
        [eventX]).sent.map Delivery.event = [eventX] ∧
      ∀ d ∈ (pollCycle payloadText 42
        (handleUpdate
          (pollCycle payloadText 42
            (handleUpdate (freshStore .absent) (commandUpdate 42 "stop") allOk).world
            [eventX, eventX, eventX]).world
          (commandUpdate 42 "start") allOk).world
        [eventX]).sent, d.msg.ChatID = 42) :=
  ⟨(pollCycle_sends_iff_enabled payloadText 42 storeMuted [(42, some 0)] [eventX]
      eventX eventX eventX eventX rfl (Or.inr ⟨_, rfl⟩)).2.2.1 (by decide),
   (pollCycle_sends_iff_enabled payloadText 42 storeMuted [(42, some 0)] [eventX]
      eventX eventX eventX eventX rfl (Or.inr ⟨_, rfl⟩)).2.2.2
      (freshStore .absent) allOk allOk (by decide)⟩

end FrigateTelegram

